import Mathlib

/-!
Verification of the `mbed` directory-indexing core: a shallow embedding of the
manifest store (`src/mbed/metadata.py`), the change detector
(`src/mbed/file_tracking.py`), the synchronizer (`src/mbed/index_manager.py`,
`src/mbed/ops/update.py`), the index builder (`src/mbed/ops/create_index.py`)
and the query service (`src/mbed/ops/search_directory.py`).

Modelling conventions:
- Python `float` timestamps, sizes and similarity scores are modelled as `ℚ`
  (sizes as `ℤ`); the program only copies and compares them.
- Python `dict` (insertion ordered) is modelled as an association list with
  `dlookup` / `dinsert` / `derase` mirroring `d[k]`, `d[k] = v`, `del d[k]`.
- Strings are Lean `String`s; filesystem paths are the strings Python's
  `Path` renders to.
- The opaque collaborators (document loader, embedder, vector store, clock)
  are supplied as an explicit environment; vector-store document ids, which
  llama-index draws as fresh uuid4 values at document-load time, are modelled
  as `mkId` applied to a monotone counter (uuid4 is collision-free).
-/

namespace Mbed

/-! ### Python dict model -/

/-- `k in d` / `d[k]` on a Python dict modelled as an insertion-ordered
association list: the value at the first (unique) occurrence of `k`. -/
def dlookup {α : Type} (k : String) : List (String × α) → Option α
  | [] => none
  | (k', v) :: rest => if k' = k then some v else dlookup k rest

/-- `d[k] = v` on a Python dict: overwrite in place if the key is present,
otherwise append at the end (Python dicts preserve insertion order). -/
def dinsert {α : Type} (k : String) (v : α) : List (String × α) → List (String × α)
  | [] => [(k, v)]
  | (k', v') :: rest => if k' = k then (k', v) :: rest else (k', v') :: dinsert k v rest

/-- `del d[k]` on a Python dict: drop the (unique) entry with key `k`. -/
def derase {α : Type} (k : String) : List (String × α) → List (String × α)
  | [] => []
  | (k', v') :: rest => if k' = k then rest else (k', v') :: derase k rest

/-! ### Timestamps

`datetime` values as this program builds and persists them: a naive or
UTC-offset-aware wall-clock time.  `metadata.py` serializes them with
`dt.isoformat().replace("+00:00", "Z")` and parses them back with
`datetime.fromisoformat(s.replace("Z", "+00:00"))`. -/

/-- A Python `datetime`: calendar components plus an optional UTC offset in
whole minutes (`offsetMin = none` models a naive datetime; `tzinfo`
offsets of aware datetimes are strictly between -24h and +24h). -/
structure DTime where
  year : Nat
  month : Nat
  day : Nat
  hour : Nat
  minute : Nat
  second : Nat
  usec : Nat
  offsetMin : Option Int
deriving DecidableEq, Repr

/-- The component ranges `datetime.__new__` enforces, restricted to
whole-minute offsets (every timestamp this program creates is
`datetime.now(UTC)`, offset zero, or is parsed back from its own output). -/
def DTime.Valid (t : DTime) : Prop :=
  1 ≤ t.year ∧ t.year ≤ 9999 ∧ 1 ≤ t.month ∧ t.month ≤ 12 ∧ 1 ≤ t.day ∧ t.day ≤ 31 ∧
  t.hour ≤ 23 ∧ t.minute ≤ 59 ∧ t.second ≤ 59 ∧ t.usec ≤ 999999 ∧
  ∀ o ∈ t.offsetMin, -1440 < o ∧ o < 1440

instance (t : DTime) : Decidable t.Valid := by
  unfold DTime.Valid; infer_instance

/-- The character for a decimal digit. -/
def digitChar (n : Nat) : Char := Char.ofNat (48 + n)

/-- `%02d` zero-padded rendering of a value below 100 (as in `isoformat`). -/
def pad2 (n : Nat) : List Char := [digitChar (n / 10), digitChar (n % 10)]

/-- `%04d` zero-padded rendering of a value below 10000. -/
def pad4 (n : Nat) : List Char :=
  [digitChar (n / 1000), digitChar (n / 100 % 10), digitChar (n / 10 % 10), digitChar (n % 10)]

/-- `%06d` zero-padded rendering of a value below 1000000. -/
def pad6 (n : Nat) : List Char :=
  [digitChar (n / 100000), digitChar (n / 10000 % 10), digitChar (n / 1000 % 10),
   digitChar (n / 100 % 10), digitChar (n / 10 % 10), digitChar (n % 10)]

/-- The `±HH:MM` tail `datetime.isoformat` appends for an aware datetime. -/
def renderOffset (o : Int) : List Char :=
  (if o < 0 then '-' else '+') :: (pad2 (o.natAbs / 60) ++ ':' :: pad2 (o.natAbs % 60))

/-- `datetime.isoformat()`: `YYYY-MM-DDTHH:MM:SS[.ffffff][±HH:MM]` (the
fractional part is omitted when `microsecond == 0`, the offset when naive). -/
def isoformat (t : DTime) : List Char :=
  pad4 t.year ++ '-' :: pad2 t.month ++ '-' :: pad2 t.day ++
    'T' :: pad2 t.hour ++ ':' :: pad2 t.minute ++ ':' :: pad2 t.second ++
    (if t.usec = 0 then [] else '.' :: pad6 t.usec) ++
    (match t.offsetMin with
     | none => []
     | some o => renderOffset o)

/-- Python `str.replace(pat, rep)`: replace every non-overlapping occurrence,
scanning left to right (the empty-pattern case never arises here). -/
def replaceAll (pat rep : List Char) : List Char → List Char
  | [] => []
  | c :: rest =>
    if h : pat ≠ [] ∧ pat.isPrefixOf (c :: rest) then
      rep ++ replaceAll pat rep ((c :: rest).drop pat.length)
    else
      c :: replaceAll pat rep rest
termination_by s => s.length
decreasing_by
  · simp only [List.length_drop, List.length_cons]
    have : pat.length ≠ 0 := by
      intro hz
      exact h.1 (List.eq_nil_of_length_eq_zero hz)
    omega
  · simp

/-- `_serialize_datetime` in `metadata.py`:
`dt.isoformat().replace("+00:00", "Z")`. -/
def serializeDatetime (t : DTime) : List Char :=
  replaceAll "+00:00".toList "Z".toList (isoformat t)

/-- The numeric value of a decimal digit character, `none` otherwise. -/
def digitVal (c : Char) : Option Nat :=
  if 48 ≤ c.toNat ∧ c.toNat ≤ 57 then some (c.toNat - 48) else none

/-- Read exactly two decimal digits. -/
def read2 : List Char → Option (Nat × List Char)
  | a :: b :: rest => do
    let x ← digitVal a
    let y ← digitVal b
    pure (x * 10 + y, rest)
  | _ => none

/-- Read exactly four decimal digits. -/
def read4 : List Char → Option (Nat × List Char)
  | a :: b :: rest => do
    let x ← digitVal a
    let y ← digitVal b
    let (z, rest') ← read2 rest
    pure ((x * 10 + y) * 100 + z, rest')
  | _ => none

/-- Read exactly six decimal digits. -/
def read6 : List Char → Option (Nat × List Char)
  | a :: b :: rest => do
    let x ← digitVal a
    let y ← digitVal b
    let (z, rest') ← read4 rest
    pure ((x * 10 + y) * 10000 + z, rest')
  | _ => none

/-- Consume one expected character. -/
def expectChar (c : Char) : List Char → Option (List Char)
  | c' :: rest => if c' = c then some rest else none
  | _ => none

/-- Optional `.ffffff` fractional-seconds part (absent means zero). -/
def readFrac : List Char → Option (Nat × List Char)
  | '.' :: r => read6 r
  | s => pure (0, s)

/-- Optional `±HH:MM` UTC-offset tail, which must end the string. -/
def readOffset : List Char → Option (Option Int)
  | [] => pure none
  | '+' :: r => do
      let (oh, r) ← read2 r
      let r ← expectChar ':' r
      let (om, r) ← read2 r
      if r = [] then pure (some ((oh * 60 + om : Nat) : Int)) else none
  | '-' :: r => do
      let (oh, r) ← read2 r
      let r ← expectChar ':' r
      let (om, r) ← read2 r
      if r = [] then pure (some (-((oh * 60 + om : Nat) : Int))) else none
  | _ => none

/-- `datetime.fromisoformat` on the grammar `datetime.isoformat` emits (the
only strings this program ever feeds it): `YYYY-MM-DDTHH:MM:SS[.ffffff][±HH:MM]`. -/
def fromisoformat (s : List Char) : Option DTime := do
  let (y, s) ← read4 s
  let s ← expectChar '-' s
  let (mo, s) ← read2 s
  let s ← expectChar '-' s
  let (d, s) ← read2 s
  let s ← expectChar 'T' s
  let (h, s) ← read2 s
  let s ← expectChar ':' s
  let (mi, s) ← read2 s
  let s ← expectChar ':' s
  let (sec, s) ← read2 s
  let (us, s) ← readFrac s
  let off ← readOffset s
  pure ⟨y, mo, d, h, mi, sec, us, off⟩

/-- The datetime-string validator shared by `Metadata` and `FileMetadata`:
`datetime.fromisoformat(s.replace("Z", "+00:00"))`. -/
def parseDatetime (s : List Char) : Option DTime :=
  fromisoformat (replaceAll "Z".toList "+00:00".toList s)

/-- The body of an isoformat string up to and including the fractional
seconds, i.e. everything before the UTC-offset tail. -/
def isoCore (t : DTime) : List Char :=
  pad4 t.year ++ '-' :: pad2 t.month ++ '-' :: pad2 t.day ++
    'T' :: pad2 t.hour ++ ':' :: pad2 t.minute ++ ':' :: pad2 t.second ++
    (if t.usec = 0 then [] else '.' :: pad6 t.usec)

/-! ### Manifest data model (`metadata.py`) -/

/-- `FileMetadata` (pydantic): one record per tracked source file. -/
structure FileMetadata where
  path : String
  mtime : ℚ
  size : ℤ
  doc_ids : List String := []
  indexed_at : Option DTime := none
deriving DecidableEq, Repr

/-- `MetadataConfig` (pydantic): index-wide configuration. -/
structure MetadataConfig where
  top_k : ℤ := 3
  exclude : List String := []
deriving DecidableEq, Repr

/-- The `storage_type` literal: `"chromadb" | "simple"`. -/
inductive StorageType where
  | chromadb
  | simple
deriving DecidableEq, Repr

/-- `Metadata` (pydantic): the manifest persisted in `.mbed/metadata.json`,
with `indexed_files` an insertion-ordered dict from relative path to record. -/
structure Metadata where
  model_name : String
  storage_type : StorageType
  created_at : DTime
  last_updated : DTime
  indexed_files : List (String × FileMetadata) := []
  config : MetadataConfig := {}
deriving DecidableEq, Repr

/-! ### Change detection (`file_tracking.py`) -/

/-- A `*` wildcard consumes any suffix of the segment: try the rest of the
pattern at every tail position. -/
def globStar (m : List Char → Bool) : List Char → Bool
  | [] => m []
  | c :: s2 => m (c :: s2) || globStar m s2

/-- `fnmatch`-style matching of one glob pattern segment against one path
segment: literal characters plus the `*` and `?` wildcards (the modelled
pattern language; character classes are outside it). -/
def globMatch : List Char → List Char → Bool
  | [], s => s.isEmpty
  | '*' :: ps, s => globStar (globMatch ps) s
  | '?' :: ps, s =>
      match s with
      | [] => false
      | _ :: s2 => globMatch ps s2
  | c :: ps, s =>
      match s with
      | [] => false
      | c2 :: s2 => c = c2 && globMatch ps s2

/-- Python `str.split("/")`: the `/`-separated segments, empty ones kept. -/
def splitSlash : List Char → List (List Char)
  | [] => [[]]
  | c :: rest =>
      if c = '/' then [] :: splitSlash rest
      else
        match splitSlash rest with
        | r :: rs => (c :: r) :: rs
        | [] => [[c]]

/-- `PurePath.match`: a relative glob pattern matches a path from the right —
the pattern's segments must match the same number of trailing path segments. -/
def pathMatch (p pattern : String) : Bool :=
  let ps := splitSlash pattern.toList
  let ss := splitSlash p.toList
  ps.length ≤ ss.length &&
    (List.zipWith globMatch ps (ss.drop (ss.length - ps.length))).all id

/-- `_should_exclude` (`file_tracking.py` lines 21-46): the relative path
matches a pattern, or any single path segment equals or matches a pattern
(a pattern matching an ancestor directory name excludes the subtree). -/
def shouldExclude (rel_path : String) (exclude_patterns : List String) : Bool :=
  exclude_patterns.any fun pattern =>
    pathMatch rel_path pattern ||
      (splitSlash rel_path.toList).any fun part =>
        part = pattern.toList || pathMatch (String.mk part) pattern

/-- One regular file found by `directory.rglob("*")`, identified by its path
relative to the root, with its `stat` mtime and size. -/
structure FsEntry where
  relPath : String
  mtime : ℚ
  size : ℤ
deriving DecidableEq, Repr

/-- `FileChange` (`file_tracking.py`). -/
structure FileChange where
  path : String
  change_type : String
  old_mtime : Option ℚ := none
  new_mtime : Option ℚ := none
deriving DecidableEq, Repr

/-- The `changes` dictionary with keys `"added"`, `"modified"`, `"deleted"`. -/
structure Changes where
  added : List FileChange := []
  modified : List FileChange := []
  deleted : List FileChange := []
deriving DecidableEq, Repr

/-- The scan-loop filter (`file_tracking.py` lines 80-83): keep a regular file
unless it sits under the reserved subdirectory or matches an exclude pattern.
`str(file_path).startswith(str(mbed_dir))`, with
`file_path = directory / relPath` and `mbed_dir = directory / ".mbed"`, is
exactly `".mbed"` being a string prefix of the relative path. -/
def scanKeep (exclude_patterns : List String) (e : FsEntry) : Bool :=
  !(".mbed".toList.isPrefixOf e.relPath.toList) && !shouldExclude e.relPath exclude_patterns

/-- The `FileMetadata` the scan loop builds for one live file:
`FileMetadata(path=str(file_path), mtime=stat.st_mtime, size=stat.st_size)`. -/
def scanRecord (directory : String) (e : FsEntry) : FileMetadata :=
  { path := directory ++ "/" ++ e.relPath, mtime := e.mtime, size := e.size }

/-- One iteration of the scan loop: skip filtered files, otherwise
`current_files[rel_path] = FileMetadata(...)`. -/
def scanStep (directory : String) (exclude_patterns : List String)
    (acc : List (String × FileMetadata)) (e : FsEntry) : List (String × FileMetadata) :=
  if scanKeep exclude_patterns e then dinsert e.relPath (scanRecord directory e) acc
  else acc

/-- The `current_files` dict (`file_tracking.py` lines 78-91): the filtered
rescan, keyed by relative path, holding a fresh `FileMetadata` per live file. -/
def currentFiles (directory : String) (exclude_patterns : List String)
    (scan : List FsEntry) : List (String × FileMetadata) :=
  scan.foldl (scanStep directory exclude_patterns) []

/-- One iteration of the added/modified loop (`file_tracking.py` lines 93-118). -/
def detectStep (indexed_files : List (String × FileMetadata)) (ch : Changes)
    (entry : String × FileMetadata) : Changes :=
  match dlookup entry.1 indexed_files with
  | none =>
      { ch with added := ch.added ++
          [{ path := entry.2.path, change_type := "added", new_mtime := some entry.2.mtime }] }
  | some old =>
      if entry.2.mtime ≠ old.mtime ∨ entry.2.size ≠ old.size then
        { ch with modified := ch.modified ++
            [{ path := entry.2.path, change_type := "modified",
               old_mtime := some old.mtime, new_mtime := some entry.2.mtime }] }
      else ch

/-- One iteration of the deleted loop (`file_tracking.py` lines 120-129). -/
def deletedStep (current_files : List (String × FileMetadata)) (ch : Changes)
    (entry : String × FileMetadata) : Changes :=
  if (dlookup entry.1 current_files).isNone then
    { ch with deleted := ch.deleted ++
        [{ path := entry.2.path, change_type := "deleted", old_mtime := some entry.2.mtime }] }
  else ch

/-- `detect_changes` (`file_tracking.py` lines 49-131).  The live filesystem is
supplied as `scan` (every regular file under the root, reserved subdirectory
included) together with whether the reserved subdirectory exists and the
manifest file's current content. -/
def detect_changes (directory : String) (mbedDirExists : Bool)
    (manifestFile : Option Metadata) (scan : List FsEntry) : Except String Changes := do
  if !mbedDirExists then
    throw "directory is not indexed"
  let metadata ← match manifestFile with
    | none => throw "Metadata file not found"
    | some m => pure m
  let indexed_files := metadata.indexed_files
  let exclude_patterns := metadata.config.exclude
  let current := currentFiles directory exclude_patterns scan
  let ch := current.foldl (detectStep indexed_files) {}
  pure (indexed_files.foldl (deletedStep current) ch)

/-! ### Synchronizer (`index_manager.py`, `ops/update.py`) -/

/-- The vector store and docstore behind `self._index`: the resident document
ids, plus the monotone counter that models llama-index drawing fresh uuid4
document ids at load time. -/
structure Store where
  ids : List String
  nextId : Nat
deriving DecidableEq, Repr

/-- The opaque uuid4 document-id supply, injectively indexed by draw number. -/
def mkId (n : Nat) : String := String.mk (List.replicate (n + 1) 'u')

/-- The opaque collaborators of the synchronizer: the document loader
(`SimpleDirectoryReader(...).load_data()`, returning how many documents a file
splits into, or raising), `Path.stat`, which `delete_ref_doc` / `insert` calls
raise, and the wall clock `datetime.now(UTC)`. -/
structure Env where
  loadDocs : String → Except String Nat
  stat : String → Except String (ℚ × ℤ)
  failDelete : List String
  failInsert : List String
  now : DTime

/-- `Path.relative_to`: strip the directory prefix or raise `ValueError`. -/
def relativeTo (p directory : String) : Except String String :=
  let d := directory.toList ++ ['/']
  if d.isPrefixOf p.toList then .ok (String.mk (p.toList.drop d.length))
  else .error "path is not relative to directory"

/-- `self._index.delete_ref_doc(doc_id, delete_from_docstore=True)` wrapped in
its per-chunk `try/except`: a raising delete leaves the store as it was and is
logged as a warning. -/
def delete_ref_doc (env : Env) (s : Store) (doc_id : String) : Store :=
  if doc_id ∈ env.failDelete then s else { s with ids := s.ids.erase doc_id }

/-- The per-file deletion loop over recorded chunk ids. -/
def deleteMany (env : Env) (s : Store) (doc_ids : List String) : Store :=
  doc_ids.foldl (delete_ref_doc env) s

/-- The `for doc in documents: self._index.insert(doc)` loop; a raising insert
aborts the loop with the store mutations made so far. -/
def insertMany (env : Env) (s : Store) : List String → Except (Store × String) Store
  | [] => .ok s
  | doc_id :: rest =>
      if doc_id ∈ env.failInsert then .error (s, "insert failed")
      else insertMany env { s with ids := s.ids ++ [doc_id] } rest

/-- The mutable state `add_files` / `remove_files` act on: the loaded index
and the in-memory manifest. -/
structure AddState where
  store : Store
  metadata : Metadata
deriving Repr

/-- The doc ids `reader.load_data()` assigns to the `n` documents a file
splits into: the next `n` fresh uuid4 draws. -/
def freshIds (s : Store) (n : Nat) : List String :=
  (List.range n).map fun i => mkId (s.nextId + i)

/-- The body of the `add_files` loop (`index_manager.py` lines 170-209) for one
file: the whole body runs under `try`; any raise is caught and returned as a
`(file_path, message)` error entry.  On success the second component is `none`
and the file's record now carries the freshly captured doc ids and stat. -/
def addOne (directory : String) (env : Env) (st : AddState) (file_path : String) :
    AddState × Option (String × String) :=
  match relativeTo file_path directory with
  | .error e => (st, some (file_path, e))
  | .ok rel_path =>
    -- if previously indexed, delete every old doc id first (failures warned)
    let st1 :=
      match dlookup rel_path st.metadata.indexed_files with
      | some old => { st with store := deleteMany env st.store old.doc_ids }
      | none => st
    match env.loadDocs file_path with
    | .error e => (st1, some (file_path, e))
    | .ok n =>
      -- load_data creates n documents, each with a fresh uuid4 doc_id
      let doc_ids := freshIds st1.store n
      let st2 := { st1 with store := { st1.store with nextId := st1.store.nextId + n } }
      match insertMany env st2.store doc_ids with
      | .error (s', e) => ({ st2 with store := s' }, some (file_path, e))
      | .ok s' =>
        match env.stat file_path with
        | .error e => ({ st2 with store := s' }, some (file_path, e))
        | .ok (mt, sz) =>
          let fm : FileMetadata :=
            { path := file_path, mtime := mt, size := sz, doc_ids := doc_ids,
              indexed_at := some env.now }
          ({ store := s',
             metadata := { st2.metadata with
               indexed_files := dinsert rel_path fm st2.metadata.indexed_files } },
           none)

/-- The result dictionary of `IndexManager.add_files`. -/
structure AddResult where
  processed : Nat
  errors : List (String × String)
deriving DecidableEq, Repr

/-- One loop iteration of `add_files` threading the `(state, processed,
errors)` accumulator: a success bumps `processed`, a caught exception appends
its error entry. -/
def addStep (directory : String) (env : Env)
    (acc : AddState × Nat × List (String × String)) (p : String) :
    AddState × Nat × List (String × String) :=
  match addOne directory env acc.1 p with
  | (st', none) => (st', acc.2.1 + 1, acc.2.2)
  | (st', some err) => (st', acc.2.1, acc.2.2 ++ [err])

/-- `IndexManager.add_files` (`index_manager.py` lines 147-217): process every
file in order, counting successes and collecting error entries, then refresh
`last_updated`. -/
def add_files (directory : String) (env : Env) (st : AddState)
    (file_paths : List String) : AddState × AddResult :=
  let z := file_paths.foldl (addStep directory env) (st, 0, [])
  ({ z.1 with metadata := { z.1.metadata with last_updated := env.now } },
   { processed := z.2.1, errors := z.2.2 })

/-- The body of the `remove_files` loop (`index_manager.py` lines 277-300) for
one file: delete the recorded doc ids (failures warned) and drop the record,
or — when the path is unexpectedly untracked — log and skip.  The `Bool` says
whether `removed` was incremented. -/
def removeOne (directory : String) (env : Env) (st : AddState) (file_path : String) :
    AddState × Bool × Option (String × String) :=
  match relativeTo file_path directory with
  | .error e => (st, false, some (file_path, e))
  | .ok rel_path =>
    match dlookup rel_path st.metadata.indexed_files with
    | some fm =>
        ({ store := deleteMany env st.store fm.doc_ids,
           metadata := { st.metadata with
             indexed_files := derase rel_path st.metadata.indexed_files } },
         true, none)
    | none => (st, false, none)

/-- One loop iteration of `remove_files` threading the `(state, removed,
errors)` accumulator. -/
def removeStep (directory : String) (env : Env)
    (acc : AddState × Nat × List (String × String)) (p : String) :
    AddState × Nat × List (String × String) :=
  match removeOne directory env acc.1 p with
  | (st', true, _) => (st', acc.2.1 + 1, acc.2.2)
  | (st', false, none) => (st', acc.2.1, acc.2.2)
  | (st', false, some err) => (st', acc.2.1, acc.2.2 ++ [err])

/-- The on-disk artifacts an invocation starts from: whether `.mbed` exists,
the manifest file's content, and the persisted vector store. -/
structure World where
  mbedDirExists : Bool
  manifestFile : Option Metadata
  store : Store
deriving DecidableEq, Repr

/-- One document produced by the opaque bulk loader, with its source-file
path (`doc.metadata["file_path"]`) and its fresh uuid4 `doc_id`. -/
structure Doc where
  file_path : String
  doc_id : String
deriving DecidableEq, Repr

/-- `IndexManager.update_file_metadata` (`index_manager.py` lines 219-255):
record one `FileMetadata` per existing file, capturing its doc ids from the
loaded documents (a `relative_to` failure propagates — this method has no
`try`). -/
def update_file_metadata (directory : String) (env : Env) (md : Metadata)
    (file_paths : List String) (documents : List Doc) : Except String Metadata :=
  file_paths.foldlM
    (fun acc fp =>
      match env.stat fp with
      | .error _ => pure acc  -- file_path.exists() is False: skip
      | .ok (mt, sz) => do
        let rel_path ← relativeTo fp directory
        let doc_ids := (documents.filter (fun d => d.file_path = fp)).map Doc.doc_id
        let fm : FileMetadata :=
          { path := fp, mtime := mt, size := sz, doc_ids := doc_ids,
            indexed_at := some env.now }
        pure { acc with indexed_files := dinsert rel_path fm acc.indexed_files })
    md

/-- `IndexManager.initialize` (`index_manager.py` lines 65-145): reject an
already-indexed directory, create `.mbed`, bulk-build the vector store from
the documents, and set up the fresh in-memory manifest. -/
def initIndex (env : Env) (w : World) (documents : List Doc) (model_name : String)
    (storage_type : StorageType) (top_k : ℤ) (exclude : List String) :
    Except String (World × Metadata) := do
  if w.manifestFile.isSome then
    throw "directory is already indexed"
  let w1 := { w with mbedDirExists := true }  -- make_mbed_dir
  let w2 := { w1 with store := { ids := documents.map Doc.doc_id, nextId := documents.length } }
  let md : Metadata :=
    { model_name := model_name, storage_type := storage_type,
      created_at := env.now, last_updated := env.now,
      indexed_files := [], config := { top_k := top_k, exclude := exclude } }
  pure (w2, md)

/-- `create_index` (`ops/create_index.py` lines 14-69).  The opaque
`SimpleDirectoryReader` bulk load over the root minus the exclude patterns is
the `documents` argument; zero qualifying files means `documents = []`.  The
returned `World` is the on-disk state when the call returns or raises. -/
def create_index (directory : String) (env : Env) (w : World) (documents : List Doc)
    (model_name : String) (storage_type : StorageType) (top_k : ℤ)
    (exclude : List String) : Except String Metadata × World :=
  let exclude := exclude ++ [".mbed"]
  if documents.isEmpty then
    (.error "No documents found", w)
  else
    match initIndex env w documents model_name storage_type top_k exclude with
    | .error e => (.error e, w)
    | .ok (w1, md) =>
      let file_paths := documents.filterMap fun d =>
        if (env.stat d.file_path).isOk then some d.file_path else none
      match update_file_metadata directory env md file_paths documents with
      | .error e => (.error e, w1)
      | .ok md' => (.ok md', { w1 with manifestFile := some md' })

/-! ### Query service (`ops/search_directory.py`) -/

/-- A JSON document (numbers as exact rationals — `json` round-trips Python
floats and ints through their shortest decimal form). -/
inductive Json where
  | null
  | str (s : String)
  | num (q : ℚ)
  | arr (elems : List Json)
  | obj (fields : List (String × Json))

/-- Read a JSON string (pydantic `str` / `Path` validation). -/
def Json.asStr : Json → Except String String
  | .str s => .ok s
  | _ => .error "expected string"

/-- Read a JSON number as a float (pydantic `float` validation). -/
def Json.asNum : Json → Except String ℚ
  | .num q => .ok q
  | _ => .error "expected number"

/-- Read an integral JSON number (pydantic `int` validation). -/
def Json.asInt : Json → Except String ℤ
  | .num q => if q.den = 1 then .ok q.num else .error "expected integer"
  | _ => .error "expected integer"

/-- Validate each element of a JSON array as a string, in order. -/
def asStrings : List Json → Except String (List String)
  | [] => .ok []
  | j :: rest => do
      let s ← j.asStr
      let r ← asStrings rest
      pure (s :: r)

/-- Read a JSON array of strings (pydantic `list[str]` validation). -/
def Json.asStrList : Json → Except String (List String)
  | .arr es => asStrings es
  | _ => .error "expected array of strings"

/-- The datetime model-validator: accept a string and parse it via
`datetime.fromisoformat(s.replace("Z", "+00:00"))`. -/
def Json.asDatetime : Json → Except String DTime
  | .str s =>
      match parseDatetime s.toList with
      | some t => .ok t
      | none => .error "invalid isoformat string"
  | _ => .error "expected datetime string"

/-- `model_dump_json` for one `FileMetadata`, field for field in declaration
order.  pydantic invokes the custom `indexed_at` field serializer even on a
`None` value (its `when_used` default is `always`), where `dt.isoformat()`
raises `AttributeError`; that raise is the error case. -/
def FileMetadata.dumpJson (fm : FileMetadata) : Except String Json :=
  match fm.indexed_at with
  | none => .error "NoneType object has no attribute isoformat"
  | some t =>
      .ok (Json.obj
        [("path", Json.str fm.path),
         ("mtime", Json.num fm.mtime),
         ("size", Json.num (fm.size : ℚ)),
         ("doc_ids", Json.arr (fm.doc_ids.map Json.str)),
         ("indexed_at", Json.str (String.mk (serializeDatetime t)))])

/-- The `storage_type` literal rendered to its JSON string. -/
def StorageType.toStr : StorageType → String
  | .chromadb => "chromadb"
  | .simple => "simple"

/-- Serialize the `indexed_files` dict entry by entry, in insertion order. -/
def dumpEntries : List (String × FileMetadata) → Except String (List (String × Json))
  | [] => .ok []
  | (k, fm) :: rest => do
      let j ← fm.dumpJson
      let r ← dumpEntries rest
      pure ((k, j) :: r)

/-- `Metadata.model_dump_json`, field for field in declaration order; the
datetime fields go through `_serialize_datetime`. -/
def Metadata.dumpJson (md : Metadata) : Except String Json := do
  let files ← dumpEntries md.indexed_files
  pure (Json.obj
    [("model_name", Json.str md.model_name),
     ("storage_type", Json.str md.storage_type.toStr),
     ("created_at", Json.str (String.mk (serializeDatetime md.created_at))),
     ("last_updated", Json.str (String.mk (serializeDatetime md.last_updated))),
     ("indexed_files", Json.obj files),
     ("config", Json.obj
        [("top_k", Json.num (md.config.top_k : ℚ)),
         ("exclude", Json.arr (md.config.exclude.map Json.str))])])

/-- pydantic validation of one `FileMetadata` from its JSON object:
`path`/`mtime`/`size` are required, `doc_ids` defaults to `[]`, `indexed_at`
to `None`; string datetimes go through the before-validator. -/
def FileMetadata.validate (j : Json) : Except String FileMetadata :=
  match j with
  | .obj fields => do
    let path ← match dlookup "path" fields with
      | some v => v.asStr
      | none => .error "path: field required"
    let mtime ← match dlookup "mtime" fields with
      | some v => v.asNum
      | none => .error "mtime: field required"
    let size ← match dlookup "size" fields with
      | some v => v.asInt
      | none => .error "size: field required"
    let doc_ids ← match dlookup "doc_ids" fields with
      | some v => v.asStrList
      | none => pure []
    let indexed_at ← match dlookup "indexed_at" fields with
      | some Json.null => pure none
      | some v => Except.map some v.asDatetime
      | none => pure none
    pure { path := path, mtime := mtime, size := size, doc_ids := doc_ids,
           indexed_at := indexed_at }
  | _ => .error "expected object"

/-- Validate the `indexed_files` entries one by one, in order. -/
def validateEntries : List (String × Json) → Except String (List (String × FileMetadata))
  | [] => .ok []
  | (k, j) :: rest => do
      let fm ← FileMetadata.validate j
      let r ← validateEntries rest
      pure ((k, fm) :: r)

/-- pydantic validation of the `storage_type` literal. -/
def StorageType.parse (s : String) : Except String StorageType :=
  if s = "chromadb" then .ok .chromadb
  else if s = "simple" then .ok .simple
  else .error "storage_type: invalid literal"

/-- pydantic validation of `MetadataConfig` (both fields defaulted). -/
def MetadataConfig.validate (j : Json) : Except String MetadataConfig :=
  match j with
  | .obj fields => do
    let top_k ← match dlookup "top_k" fields with
      | some v => v.asInt
      | none => pure 3
    let exclude ← match dlookup "exclude" fields with
      | some v => v.asStrList
      | none => pure []
    pure { top_k := top_k, exclude := exclude }
  | _ => .error "expected object"

/-- `Metadata(**json.load(f))`: pydantic validation of the whole manifest. -/
def Metadata.validate (j : Json) : Except String Metadata :=
  match j with
  | .obj fields => do
    let model_name ← match dlookup "model_name" fields with
      | some v => v.asStr
      | none => .error "model_name: field required"
    let storage_type ← match dlookup "storage_type" fields with
      | some v => do StorageType.parse (← v.asStr)
      | none => .error "storage_type: field required"
    let created_at ← match dlookup "created_at" fields with
      | some v => v.asDatetime
      | none => .error "created_at: field required"
    let last_updated ← match dlookup "last_updated" fields with
      | some v => v.asDatetime
      | none => .error "last_updated: field required"
    let indexed_files ← match dlookup "indexed_files" fields with
      | some (Json.obj entries) => validateEntries entries
      | some _ => .error "indexed_files: expected object"
      | none => pure []
    let config ← match dlookup "config" fields with
      | some v => MetadataConfig.validate v
      | none => pure {}
    pure { model_name := model_name, storage_type := storage_type,
           created_at := created_at, last_updated := last_updated,
           indexed_files := indexed_files, config := config }
  | _ => .error "expected object"

/-- `MetadataManager.save_metadata`: replace the manifest file's whole content
with the freshly dumped document (whatever was there before is discarded). -/
def save_metadata (manifestFile : Option Json) (metadata : Metadata) :
    Except String (Option Json) :=
  let _ := manifestFile
  Except.map some metadata.dumpJson

/-- `MetadataManager.load_metadata`: `FileNotFoundError` when the manifest
file is absent, otherwise `json.load` + `Metadata(**data)`. -/
def load_metadata (manifestFile : Option Json) : Except String Metadata :=
  match manifestFile with
  | none => .error "Metadata file not found"
  | some j => Metadata.validate j

/-! ### Characterizations used to state the claims -/

/-- The `added` change record one rescan entry contributes, if any. -/
def addedOf (indexed_files : List (String × FileMetadata))
    (entry : String × FileMetadata) : Option FileChange :=
  match dlookup entry.1 indexed_files with
  | none => some { path := entry.2.path, change_type := "added", new_mtime := some entry.2.mtime }
  | some _ => none

/-- The `modified` change record one rescan entry contributes, if any. -/
def modifiedOf (indexed_files : List (String × FileMetadata))
    (entry : String × FileMetadata) : Option FileChange :=
  match dlookup entry.1 indexed_files with
  | none => none
  | some old =>
      if entry.2.mtime ≠ old.mtime ∨ entry.2.size ≠ old.size then
        some { path := entry.2.path, change_type := "modified",
               old_mtime := some old.mtime, new_mtime := some entry.2.mtime }
      else none

/-- The `deleted` change record one manifest entry contributes, if any. -/
def deletedOf (current_files : List (String × FileMetadata))
    (entry : String × FileMetadata) : Option FileChange :=
  if (dlookup entry.1 current_files).isNone then
    some { path := entry.2.path, change_type := "deleted", old_mtime := some entry.2.mtime }
  else none

/-- A rescan and a manifest agree exactly on (path, mtime, size): the same
relative paths are present, and agreeing entries carry the same mtime and
size. -/
def matchesExactly (current idx : List (String × FileMetadata)) : Prop :=
  (∀ k, (dlookup k current).isSome ↔ (dlookup k idx).isSome) ∧
  ∀ k c i, dlookup k current = some c → dlookup k idx = some i →
    c.mtime = i.mtime ∧ c.size = i.size

/-- All recorded doc ids of a manifest were drawn before the store's current
uuid counter position (every id the program ever records is a past draw). -/
def FreshBefore (doc_ids : List String) (n : Nat) : Prop :=
  ∀ id ∈ doc_ids, ∃ k, k < n ∧ id = mkId k

/-- A concrete aware timestamp (the instant the sample index was created). -/
def wT0 : DTime := ⟨2024, 3, 5, 12, 30, 45, 0, some 0⟩

/-- A later concrete timestamp, used as the sample environment clock. -/
def wT1 : DTime := ⟨2024, 3, 6, 9, 0, 0, 0, some 0⟩

/-- The tracked record of `a.txt` in the sample manifest. -/
def wFm : FileMetadata :=
  { path := "/r/a.txt", mtime := 1, size := 2, doc_ids := [mkId 0], indexed_at := some wT0 }

/-- A sample manifest tracking `a.txt`, with one exclude pattern. -/
def wMd : Metadata :=
  { model_name := "m", storage_type := .chromadb, created_at := wT0, last_updated := wT0,
    indexed_files := [("a.txt", wFm)], config := { top_k := 3, exclude := ["*.env"] } }

/-- A rescan of the sample root: `a.txt` unchanged, `b.txt` new. -/
def wScan : List FsEntry := [⟨"a.txt", 1, 2⟩, ⟨"b.txt", 3, 4⟩]

/-- The change set `detect_changes` computes for the sample rescan. -/
def wCh : Changes :=
  { added := [{ path := "/r/b.txt", change_type := "added", new_mtime := some 3 }] }

/-- A sample environment: every load yields one document, stat always
succeeds, no store operation fails. -/
def wEnv : Env :=
  { loadDocs := fun _ => .ok 1, stat := fun _ => .ok (2, 2),
    failDelete := [], failInsert := [], now := wT1 }

/-- A sample environment whose document loader always raises. -/
def wEnvF : Env :=
  { loadDocs := fun _ => .error "load failed", stat := fun _ => .ok (2, 2),
    failDelete := [], failInsert := [], now := wT1 }

/-- The sample in-memory synchronizer state for the `wMd` manifest. -/
def wSt : AddState := { store := { ids := [mkId 0], nextId := 1 }, metadata := wMd }

/-- The tracked record of the excluded file `b.env`. -/
def wFmB : FileMetadata :=
  { path := "/r/b.env", mtime := 1, size := 1, doc_ids := [mkId 0], indexed_at := some wT0 }

/-- A manifest still tracking `b.env` although `*.env` is now excluded —
the configuration Scenario "pattern added after initial indexing" leaves. -/
def wMd2 : Metadata :=
  { model_name := "m", storage_type := .chromadb, created_at := wT0, last_updated := wT0,
    indexed_files := [("b.env", wFmB)], config := { top_k := 3, exclude := ["*.env"] } }

/-- The on-disk world holding the `wMd2` manifest. -/
def wW : World :=
  { mbedDirExists := true, manifestFile := some wMd2, store := { ids := [mkId 0], nextId := 1 } }

theorem dlookup_dinsert_self {α : Type} (k : String) (v : α) (l : List (String × α)) :
    dlookup k (dinsert k v l) = some v := by
  induction l with
  | nil => simp [dinsert, dlookup]
  | cons p rest ih =>
    obtain ⟨k', v'⟩ := p
    by_cases h : k' = k <;> simp [dinsert, dlookup, h, ih]

theorem dlookup_dinsert_ne {α : Type} {q k : String} (hne : q ≠ k) (v : α)
    (l : List (String × α)) : dlookup q (dinsert k v l) = dlookup q l := by
  have hkq : ¬ k = q := fun h => hne h.symm
  induction l with
  | nil => simp [dinsert, dlookup, hkq]
  | cons p rest ih =>
    obtain ⟨k', v'⟩ := p
    by_cases h : k' = k
    · subst h
      simp [dinsert, dlookup, hkq]
    · simp [dinsert, dlookup, h, ih]

theorem dlookup_derase_ne {α : Type} {q k : String} (hne : q ≠ k)
    (l : List (String × α)) : dlookup q (derase k l) = dlookup q l := by
  have hkq : ¬ k = q := fun h => hne h.symm
  induction l with
  | nil => simp [derase]
  | cons p rest ih =>
    obtain ⟨k', v'⟩ := p
    by_cases h : k' = k
    · subst h
      simp [derase, dlookup, hkq]
    · simp [derase, dlookup, h, ih]

theorem dlookup_eq_none_iff {α : Type} (k : String) (l : List (String × α)) :
    dlookup k l = none ↔ k ∉ l.map Prod.fst := by
  induction l with
  | nil => simp [dlookup]
  | cons p rest ih =>
    obtain ⟨k', v'⟩ := p
    by_cases h : k' = k
    · subst h
      simp [dlookup]
    · have : ¬ k = k' := fun hh => h hh.symm
      simp [dlookup, h, ih, this]

theorem dlookup_isSome_iff {α : Type} (k : String) (l : List (String × α)) :
    (dlookup k l).isSome ↔ k ∈ l.map Prod.fst := by
  induction l with
  | nil => simp [dlookup]
  | cons p rest ih =>
    obtain ⟨k', v'⟩ := p
    by_cases h : k' = k
    · subst h
      simp [dlookup]
    · have : ¬ k = k' := fun hh => h hh.symm
      simp [dlookup, h, ih, this]

theorem dlookup_derase_self {α : Type} (k : String) (l : List (String × α))
    (h : (l.map Prod.fst).Nodup) : dlookup k (derase k l) = none := by
  induction l with
  | nil => simp [derase, dlookup]
  | cons p rest ih =>
    obtain ⟨k', v'⟩ := p
    simp only [List.map_cons, List.nodup_cons] at h
    by_cases hk : k' = k
    · subst hk
      simp only [derase, if_pos rfl]
      exact (dlookup_eq_none_iff k' rest).mpr h.1
    · simp [derase, dlookup, hk, ih h.2]

theorem dinsert_eq_append {α : Type} (k : String) (v : α) (l : List (String × α))
    (h : k ∉ l.map Prod.fst) : dinsert k v l = l ++ [(k, v)] := by
  induction l with
  | nil => simp [dinsert]
  | cons p rest ih =>
    obtain ⟨k', v'⟩ := p
    simp only [List.map_cons, List.mem_cons] at h
    push_neg at h
    have : ¬ k' = k := fun hh => h.1 hh.symm
    simp [dinsert, this, ih h.2]

theorem currentFiles_aux (directory : String) (ex : List String) (scan : List FsEntry) :
    ∀ acc : List (String × FileMetadata),
      (scan.map FsEntry.relPath).Nodup →
      (∀ e ∈ scan, e.relPath ∉ acc.map Prod.fst) →
      scan.foldl (scanStep directory ex) acc =
        acc ++ (scan.filter (scanKeep ex)).map fun e => (e.relPath, scanRecord directory e) := by
  induction scan with
  | nil => intro acc _ _; simp
  | cons e rest ih =>
    intro acc hnd hdisj
    simp only [List.map_cons, List.nodup_cons] at hnd
    by_cases hk : scanKeep ex e
    · rw [List.foldl_cons]
      have hstep : scanStep directory ex acc e = acc ++ [(e.relPath, scanRecord directory e)] := by
        rw [scanStep, if_pos hk, dinsert_eq_append _ _ _ (hdisj e (by simp))]
      rw [hstep, ih _ hnd.2 ?_, List.filter_cons_of_pos hk]
      · simp
      · intro e' he'
        simp only [List.map_append, List.mem_append, List.map_cons]
        push_neg
        refine ⟨hdisj e' (List.mem_cons_of_mem _ he'), ?_⟩
        simp only [List.map_nil, List.mem_singleton]
        intro heq
        refine hnd.1 ?_
        rw [← heq]
        exact List.mem_map_of_mem FsEntry.relPath he'
    · rw [List.foldl_cons]
      have hstep : scanStep directory ex acc e = acc := by
        rw [scanStep, if_neg hk]
      rw [hstep, ih _ hnd.2 (fun e' he' => hdisj e' (List.mem_cons_of_mem _ he')),
        List.filter_cons_of_neg hk]

theorem currentFiles_eq (directory : String) (ex : List String) (scan : List FsEntry)
    (hnd : (scan.map FsEntry.relPath).Nodup) :
    currentFiles directory ex scan =
      (scan.filter (scanKeep ex)).map fun e => (e.relPath, scanRecord directory e) := by
  rw [currentFiles, currentFiles_aux directory ex scan [] hnd (by simp)]
  simp

theorem foldl_detectStep (idx : List (String × FileMetadata))
    (l : List (String × FileMetadata)) :
    ∀ ch : Changes,
      l.foldl (detectStep idx) ch =
        { added := ch.added ++ l.filterMap (addedOf idx),
          modified := ch.modified ++ l.filterMap (modifiedOf idx),
          deleted := ch.deleted } := by
  induction l with
  | nil => intro ch; simp
  | cons p rest ih =>
    intro ch
    rw [List.foldl_cons, ih]
    unfold detectStep addedOf modifiedOf
    cases h : dlookup p.1 idx with
    | none => simp [h, List.filterMap_cons]
    | some old =>
      by_cases hm : p.2.mtime ≠ old.mtime ∨ p.2.size ≠ old.size <;>
        simp [h, hm, List.filterMap_cons]

theorem foldl_deletedStep (cur : List (String × FileMetadata))
    (l : List (String × FileMetadata)) :
    ∀ ch : Changes,
      l.foldl (deletedStep cur) ch =
        { ch with deleted := ch.deleted ++ l.filterMap (deletedOf cur) } := by
  induction l with
  | nil => intro ch; simp
  | cons p rest ih =>
    intro ch
    rw [List.foldl_cons, ih]
    unfold deletedStep deletedOf
    cases h : dlookup p.1 cur with
    | none => simp [h, List.filterMap_cons]
    | some v => simp [h, List.filterMap_cons]

theorem detect_changes_eq (directory : String) (md : Metadata) (scan : List FsEntry) :
    detect_changes directory true (some md) scan =
      .ok { added := (currentFiles directory md.config.exclude scan).filterMap
              (addedOf md.indexed_files),
            modified := (currentFiles directory md.config.exclude scan).filterMap
              (modifiedOf md.indexed_files),
            deleted := md.indexed_files.filterMap
              (deletedOf (currentFiles directory md.config.exclude scan)) } := by
  unfold detect_changes
  simp [foldl_detectStep, foldl_deletedStep, pure, Except.pure, Bind.bind, Except.bind]

theorem mem_of_dlookup_eq_some {α : Type} {l : List (String × α)} {k : String} {v : α}
    (h : dlookup k l = some v) : (k, v) ∈ l := by
  induction l with
  | nil => simp [dlookup] at h
  | cons p rest ih =>
    obtain ⟨k', v'⟩ := p
    by_cases hk : k' = k
    · subst hk
      simp [dlookup] at h
      simp [h]
    · simp only [dlookup, if_neg hk] at h
      exact List.mem_cons_of_mem _ (ih h)

theorem dlookup_eq_some_of_mem {α : Type} {l : List (String × α)}
    (hnd : (l.map Prod.fst).Nodup) {k : String} {v : α} (hm : (k, v) ∈ l) :
    dlookup k l = some v := by
  induction l with
  | nil => simp at hm
  | cons p rest ih =>
    obtain ⟨k', v'⟩ := p
    simp only [List.map_cons, List.nodup_cons] at hnd
    rcases List.mem_cons.mp hm with heq | hmem
    · rw [Prod.ext_iff] at heq
      obtain ⟨h1, h2⟩ := heq
      simp only at h1 h2
      subst h1
      simp [dlookup, h2.symm]
    · have hne : k' ≠ k := by
        intro hk
        subst hk
        exact hnd.1 (List.mem_map_of_mem Prod.fst hmem)
      simp only [dlookup, if_neg hne]
      exact ih hnd.2 hmem

theorem dirJoin_inj {directory rp rp' : String}
    (h : directory ++ "/" ++ rp = directory ++ "/" ++ rp') : rp = rp' := by
  have hd : (directory ++ "/" ++ rp).data = (directory ++ "/" ++ rp').data := by rw [h]
  simp only [String.data_append] at hd
  exact String.ext (List.append_cancel_left hd)

theorem currentFiles_keys_nodup (directory : String) (ex : List String)
    (scan : List FsEntry) (hnd : (scan.map FsEntry.relPath).Nodup) :
    ((currentFiles directory ex scan).map Prod.fst).Nodup := by
  rw [currentFiles_eq directory ex scan hnd, List.map_map]
  have hsub : ((scan.filter (scanKeep ex)).map FsEntry.relPath).Sublist
      (scan.map FsEntry.relPath) :=
    List.Sublist.map FsEntry.relPath (List.filter_sublist scan)
  have : (Prod.fst ∘ fun e => (e.relPath, scanRecord directory e)) = FsEntry.relPath := rfl
  rw [this]
  exact hnd.sublist hsub

theorem mem_currentFiles_iff (directory : String) (ex : List String) (scan : List FsEntry)
    (hnd : (scan.map FsEntry.relPath).Nodup) (entry : String × FileMetadata) :
    entry ∈ currentFiles directory ex scan ↔
      ∃ e ∈ scan, scanKeep ex e = true ∧ entry = (e.relPath, scanRecord directory e) := by
  rw [currentFiles_eq directory ex scan hnd]
  simp only [List.mem_map, List.mem_filter]
  constructor
  · rintro ⟨e, ⟨he, hkeep⟩, rfl⟩
    exact ⟨e, he, hkeep, rfl⟩
  · rintro ⟨e, he, hkeep, rfl⟩
    exact ⟨e, ⟨he, hkeep⟩, rfl⟩

theorem scanKeep_true_of {rp : String} {ex : List String}
    (h1 : ".mbed".toList.isPrefixOf rp.toList = false) (h2 : shouldExclude rp ex = false)
    {e : FsEntry} (he : e.relPath = rp) : scanKeep ex e = true := by
  have h1' : ['.', 'm', 'b', 'e', 'd'].isPrefixOf rp.data = false := h1
  simp [scanKeep, he, h1', h2]

theorem dlookup_currentFiles_none_iff (directory : String) (md : Metadata)
    (scan : List FsEntry) (hscan : (scan.map FsEntry.relPath).Nodup) {rp : String}
    (h1 : ".mbed".toList.isPrefixOf rp.toList = false)
    (h2 : shouldExclude rp md.config.exclude = false) :
    dlookup rp (currentFiles directory md.config.exclude scan) = none ↔
      ¬ ∃ e ∈ scan, e.relPath = rp := by
  rw [dlookup_eq_none_iff, currentFiles_eq directory _ scan hscan, List.map_map]
  have hco : (Prod.fst ∘ fun e => (e.relPath, scanRecord directory e)) = FsEntry.relPath := rfl
  rw [hco]
  simp only [List.mem_map, List.mem_filter]
  constructor
  · intro h hex
    obtain ⟨e, he, herel⟩ := hex
    exact h ⟨e, ⟨he, scanKeep_true_of h1 h2 herel⟩, herel⟩
  · intro h hex
    obtain ⟨e, ⟨he, _⟩, herel⟩ := hex
    exact h ⟨e, he, herel⟩

/-- C1.  Change-detection classification: over an indexed root, for every
relative path outside the reserved subdirectory that matches no exclude
pattern, `detect_changes` reports it added iff it is on disk but not in
`trackedFiles`, modified iff it is in both with a differing mtime or size,
deleted iff it is tracked but absent on disk — and the three lists are all
empty iff the filtered rescan agrees with `trackedFiles` exactly on
(path, mtime, size). -/
theorem detect_changes_classification
    (directory : String) (md : Metadata) (scan : List FsEntry) (ch : Changes)
    (hscan : (scan.map FsEntry.relPath).Nodup)
    (hidx : (md.indexed_files.map Prod.fst).Nodup)
    (hcanon : ∀ p ∈ md.indexed_files, (p.2 : FileMetadata).path = directory ++ "/" ++ p.1)
    (hrun : detect_changes directory true (some md) scan = .ok ch) :
    (∀ rp : String,
      ".mbed".toList.isPrefixOf rp.toList = false →
      shouldExclude rp md.config.exclude = false →
      ((∃ c ∈ ch.added, c.path = directory ++ "/" ++ rp) ↔
          ((∃ e ∈ scan, e.relPath = rp) ∧ dlookup rp md.indexed_files = none)) ∧
      ((∃ c ∈ ch.modified, c.path = directory ++ "/" ++ rp) ↔
          (∃ e ∈ scan, e.relPath = rp ∧ ∃ fm, dlookup rp md.indexed_files = some fm ∧
            (e.mtime ≠ fm.mtime ∨ e.size ≠ fm.size))) ∧
      ((∃ c ∈ ch.deleted, c.path = directory ++ "/" ++ rp) ↔
          ((∃ fm, dlookup rp md.indexed_files = some fm) ∧ ¬ ∃ e ∈ scan, e.relPath = rp))) ∧
    ((ch.added = [] ∧ ch.modified = [] ∧ ch.deleted = []) ↔
      matchesExactly (currentFiles directory md.config.exclude scan) md.indexed_files) := by
  rw [detect_changes_eq] at hrun
  injection hrun with hch
  subst hch
  dsimp only
  have hcurnd := currentFiles_keys_nodup directory md.config.exclude scan hscan
  constructor
  · intro rp h1 h2
    refine ⟨?_, ?_, ?_⟩
    · -- added
      constructor
      · rintro ⟨c, hc, hcp⟩
        obtain ⟨entry, hent, hsome⟩ := List.mem_filterMap.mp hc
        obtain ⟨e, he, hkeep, rfl⟩ :=
          (mem_currentFiles_iff directory _ scan hscan entry).mp hent
        unfold addedOf at hsome
        cases hlk : dlookup e.relPath md.indexed_files with
        | some old => simp [hlk] at hsome
        | none =>
          simp only [hlk] at hsome
          injection hsome with hcc
          have hpath : c.path = directory ++ "/" ++ e.relPath := by
            rw [← hcc]; simp [scanRecord]
          have herel : e.relPath = rp := dirJoin_inj (hpath.symm.trans hcp)
          exact ⟨⟨e, he, herel⟩, herel ▸ hlk⟩
      · rintro ⟨⟨e, he, herel⟩, hnone⟩
        refine ⟨{ path := directory ++ "/" ++ e.relPath, change_type := "added",
                  new_mtime := some e.mtime }, ?_, by rw [herel]⟩
        refine List.mem_filterMap.mpr ⟨(e.relPath, scanRecord directory e), ?_, ?_⟩
        · exact (mem_currentFiles_iff directory _ scan hscan _).mpr
            ⟨e, he, scanKeep_true_of h1 h2 herel, rfl⟩
        · unfold addedOf
          rw [show dlookup e.relPath md.indexed_files = none from herel ▸ hnone]
          simp [scanRecord]
    · -- modified
      constructor
      · rintro ⟨c, hc, hcp⟩
        obtain ⟨entry, hent, hsome⟩ := List.mem_filterMap.mp hc
        obtain ⟨e, he, hkeep, rfl⟩ :=
          (mem_currentFiles_iff directory _ scan hscan entry).mp hent
        unfold modifiedOf at hsome
        cases hlk : dlookup e.relPath md.indexed_files with
        | none => simp [hlk] at hsome
        | some old =>
          simp only [hlk] at hsome
          by_cases hne : (scanRecord directory e).mtime ≠ old.mtime ∨
              (scanRecord directory e).size ≠ old.size
          · rw [if_pos hne] at hsome
            injection hsome with hcc
            have hpath : c.path = directory ++ "/" ++ e.relPath := by
              rw [← hcc]; simp [scanRecord]
            have herel : e.relPath = rp := dirJoin_inj (hpath.symm.trans hcp)
            refine ⟨e, he, herel, old, herel ▸ hlk, ?_⟩
            simpa [scanRecord] using hne
          · rw [if_neg hne] at hsome
            exact absurd hsome (by simp)
      · rintro ⟨e, he, herel, fm, hfm, hdiff⟩
        refine ⟨{ path := directory ++ "/" ++ e.relPath, change_type := "modified",
                  old_mtime := some fm.mtime, new_mtime := some e.mtime }, ?_, by rw [herel]⟩
        refine List.mem_filterMap.mpr ⟨(e.relPath, scanRecord directory e), ?_, ?_⟩
        · exact (mem_currentFiles_iff directory _ scan hscan _).mpr
            ⟨e, he, scanKeep_true_of h1 h2 herel, rfl⟩
        · unfold modifiedOf
          rw [show dlookup e.relPath md.indexed_files = some fm from herel ▸ hfm]
          dsimp only
          rw [if_pos (by simpa [scanRecord] using hdiff)]
          simp [scanRecord]
    · -- deleted
      constructor
      · rintro ⟨c, hc, hcp⟩
        obtain ⟨p, hp, hsome⟩ := List.mem_filterMap.mp hc
        unfold deletedOf at hsome
        by_cases hlk : (dlookup p.1 (currentFiles directory md.config.exclude scan)).isNone
        · rw [if_pos hlk] at hsome
          injection hsome with hcc
          have hpath : c.path = p.2.path := by rw [← hcc]
          have hprel : p.1 = rp := by
            refine @dirJoin_inj directory p.1 rp ?_
            rw [← hcanon p hp, ← hpath, hcp]
          refine ⟨⟨p.2, ?_⟩, ?_⟩
          · exact dlookup_eq_some_of_mem hidx (by rw [← hprel]; exact hp)
          · refine (dlookup_currentFiles_none_iff directory md scan hscan h1 h2).mp ?_
            rw [← hprel]
            exact Option.isNone_iff_eq_none.mp hlk
        · rw [if_neg hlk] at hsome
          exact absurd hsome (by simp)
      · rintro ⟨⟨fm, hfm⟩, hnotscan⟩
        have hmem : (rp, fm) ∈ md.indexed_files := mem_of_dlookup_eq_some hfm
        refine ⟨{ path := fm.path, change_type := "deleted",
                  old_mtime := some fm.mtime }, ?_, ?_⟩
        · refine List.mem_filterMap.mpr ⟨(rp, fm), hmem, ?_⟩
          unfold deletedOf
          rw [if_pos ?_]
          exact Option.isNone_iff_eq_none.mpr
            ((dlookup_currentFiles_none_iff directory md scan hscan h1 h2).mpr hnotscan)
        · exact hcanon (rp, fm) hmem
  · -- emptiness iff matchesExactly
    rw [List.filterMap_eq_nil, List.filterMap_eq_nil, List.filterMap_eq_nil]
    constructor
    · rintro ⟨hadd, hmod, hdel⟩
      constructor
      · intro k
        constructor
        · intro hk
          obtain ⟨c, hkc⟩ := Option.isSome_iff_exists.mp hk
          have hmem := mem_of_dlookup_eq_some hkc
          have := hadd (k, c) hmem
          unfold addedOf at this
          cases hlk : dlookup k md.indexed_files with
          | none => rw [hlk] at this; exact absurd this (by simp)
          | some old => simp [hlk]
        · intro hk
          obtain ⟨i, hki⟩ := Option.isSome_iff_exists.mp hk
          have hmem := mem_of_dlookup_eq_some hki
          have := hdel (k, i) hmem
          unfold deletedOf at this
          by_cases hlk : (dlookup k (currentFiles directory md.config.exclude scan)).isNone
          · rw [if_pos hlk] at this; exact absurd this (by simp)
          · exact Option.ne_none_iff_isSome.mp (by simpa using hlk)
      · intro k c i hkc hki
        have hmem := mem_of_dlookup_eq_some hkc
        have := hmod (k, c) hmem
        unfold modifiedOf at this
        rw [hki] at this
        dsimp only at this
        by_cases hne : c.mtime ≠ i.mtime ∨ c.size ≠ i.size
        · rw [if_pos hne] at this; exact absurd this (by simp)
        · push_neg at hne
          exact hne
    · rintro ⟨hkeys, hvals⟩
      refine ⟨?_, ?_, ?_⟩
      · intro p hp
        unfold addedOf
        have hcur : dlookup p.1 (currentFiles directory md.config.exclude scan) = some p.2 :=
          dlookup_eq_some_of_mem hcurnd hp
        have : (dlookup p.1 md.indexed_files).isSome :=
          (hkeys p.1).mp (by simp [hcur])
        obtain ⟨old, hold⟩ := Option.isSome_iff_exists.mp this
        rw [hold]
      · intro p hp
        unfold modifiedOf
        have hcur : dlookup p.1 (currentFiles directory md.config.exclude scan) = some p.2 :=
          dlookup_eq_some_of_mem hcurnd hp
        cases hlk : dlookup p.1 md.indexed_files with
        | none => rfl
        | some old =>
          dsimp only
          rw [if_neg ?_]
          have := hvals p.1 p.2 old hcur hlk
          push_neg
          exact this
      · intro p hp
        unfold deletedOf
        have hidxk : dlookup p.1 md.indexed_files = some p.2 :=
          dlookup_eq_some_of_mem hidx hp
        have : (dlookup p.1 (currentFiles directory md.config.exclude scan)).isSome :=
          (hkeys p.1).mpr (by simp [hidxk])
        rw [if_neg ?_]
        simp only [Option.isNone_iff_eq_none]
        intro hcontra
        rw [hcontra] at this
        exact absurd this (by simp)

/-! ### Synchronizer lemmas -/

theorem derase_sublist {α : Type} (k : String) (l : List (String × α)) :
    (derase k l).Sublist l := by
  induction l with
  | nil => simp [derase]
  | cons p rest ih =>
    obtain ⟨k', v'⟩ := p
    by_cases h : k' = k
    · simp [derase, h]
    · simpa [derase, h] using ih.cons_cons (k', v')

theorem keys_nodup_derase {α : Type} (k : String) {l : List (String × α)}
    (h : (l.map Prod.fst).Nodup) : ((derase k l).map Prod.fst).Nodup :=
  h.sublist (List.Sublist.map Prod.fst (derase_sublist k l))

theorem mkId_inj {m n : Nat} (h : mkId m = mkId n) : m = n := by
  have : (mkId m).data.length = (mkId n).data.length := by rw [h]
  simpa [mkId] using this

theorem deleteMany_nil (env : Env) (s : Store) : deleteMany env s [] = s := rfl

theorem deleteMany_cons (env : Env) (s : Store) (d : String) (rest : List String) :
    deleteMany env s (d :: rest) = deleteMany env (delete_ref_doc env s d) rest := rfl

theorem delete_ref_doc_nodup {env : Env} {s : Store} (d : String) (h : s.ids.Nodup) :
    (delete_ref_doc env s d).ids.Nodup := by
  unfold delete_ref_doc
  by_cases hd : d ∈ env.failDelete
  · simpa [hd] using h
  · simpa [hd] using h.erase d

theorem deleteMany_nextId (env : Env) (s : Store) (ds : List String) :
    (deleteMany env s ds).nextId = s.nextId := by
  induction ds generalizing s with
  | nil => rfl
  | cons d rest ih =>
    rw [deleteMany_cons, ih]
    unfold delete_ref_doc
    by_cases h : d ∈ env.failDelete <;> simp [h]

theorem deleteMany_ids_subset {env : Env} {ds : List String} :
    ∀ {s : Store} {a : String}, a ∈ (deleteMany env s ds).ids → a ∈ s.ids := by
  induction ds with
  | nil => intro s a h; simpa [deleteMany_nil] using h
  | cons d rest ih =>
    intro s a h
    rw [deleteMany_cons] at h
    have h2 := ih h
    unfold delete_ref_doc at h2
    by_cases hd : d ∈ env.failDelete
    · simpa [hd] using h2
    · simp only [hd, ite_false] at h2
      exact List.mem_of_mem_erase h2

theorem deleteMany_ids_nodup {env : Env} {ds : List String} :
    ∀ {s : Store}, s.ids.Nodup → (deleteMany env s ds).ids.Nodup := by
  induction ds with
  | nil => intro s h; simpa [deleteMany_nil] using h
  | cons d rest ih =>
    intro s h
    rw [deleteMany_cons]
    exact ih (delete_ref_doc_nodup d h)

theorem deleteMany_kill {env : Env} {ds : List String} :
    ∀ {s : Store} {a : String}, s.ids.Nodup → a ∈ ds → a ∉ env.failDelete →
      a ∉ (deleteMany env s ds).ids := by
  induction ds with
  | nil => intro s a _ ha _; simp at ha
  | cons d rest ih =>
    intro s a hnd ha hfail
    rw [deleteMany_cons]
    rcases List.mem_cons.mp ha with rfl | hrest
    · intro hmem
      have hin : a ∈ (delete_ref_doc env s a).ids := deleteMany_ids_subset hmem
      unfold delete_ref_doc at hin
      rw [if_neg hfail] at hin
      exact hnd.not_mem_erase hin
    · exact ih (delete_ref_doc_nodup d hnd) hrest hfail

theorem insertMany_ok (env : Env) (s : Store) (ds : List String)
    (h : ∀ d ∈ ds, d ∉ env.failInsert) :
    insertMany env s ds = .ok { s with ids := s.ids ++ ds } := by
  induction ds generalizing s with
  | nil => simp [insertMany]
  | cons d rest ih =>
    rw [insertMany, if_neg (h d (by simp))]
    rw [ih _ (fun d' hd' => h d' (List.mem_cons_of_mem _ hd'))]
    simp

theorem addOne_cases (directory : String) (env : Env) (st : AddState) (p : String) :
    ((addOne directory env st p).1.metadata = st.metadata ∧
      ∃ e, (addOne directory env st p).2 = some (p, e)) ∨
    (∃ rel fm, relativeTo p directory = .ok rel ∧ (addOne directory env st p).2 = none ∧
      (addOne directory env st p).1.metadata =
        { st.metadata with indexed_files := dinsert rel fm st.metadata.indexed_files }) := by
  unfold addOne
  cases hrel : relativeTo p directory with
  | error e => exact Or.inl ⟨rfl, e, rfl⟩
  | ok rel =>
    dsimp only
    cases hlk : dlookup rel st.metadata.indexed_files with
    | some old =>
      dsimp only
      cases hload : env.loadDocs p with
      | error e => exact Or.inl ⟨rfl, e, rfl⟩
      | ok n =>
        dsimp only
        cases hins : insertMany env
            { deleteMany env st.store old.doc_ids with
              nextId := (deleteMany env st.store old.doc_ids).nextId + n }
            (freshIds (deleteMany env st.store old.doc_ids) n) with
        | error pe =>
          obtain ⟨s', e⟩ := pe
          exact Or.inl ⟨rfl, e, rfl⟩
        | ok s' =>
          dsimp only
          cases hstat : env.stat p with
          | error e => exact Or.inl ⟨rfl, e, rfl⟩
          | ok msz =>
            obtain ⟨mt, sz⟩ := msz
            exact Or.inr ⟨rel,
              { path := p, mtime := mt, size := sz,
                doc_ids := freshIds (deleteMany env st.store old.doc_ids) n,
                indexed_at := some env.now }, rfl, rfl, rfl⟩
    | none =>
      dsimp only
      cases hload : env.loadDocs p with
      | error e => exact Or.inl ⟨rfl, e, rfl⟩
      | ok n =>
        dsimp only
        cases hins : insertMany env { st.store with nextId := st.store.nextId + n }
            (freshIds st.store n) with
        | error pe =>
          obtain ⟨s', e⟩ := pe
          exact Or.inl ⟨rfl, e, rfl⟩
        | ok s' =>
          dsimp only
          cases hstat : env.stat p with
          | error e => exact Or.inl ⟨rfl, e, rfl⟩
          | ok msz =>
            obtain ⟨mt, sz⟩ := msz
            exact Or.inr ⟨rel,
              { path := p, mtime := mt, size := sz,
                doc_ids := freshIds st.store n,
                indexed_at := some env.now }, rfl, rfl, rfl⟩

theorem addOne_err_metadata {directory : String} {env : Env} {st : AddState} {p : String}
    {e : String × String} (h : (addOne directory env st p).2 = some e) :
    (addOne directory env st p).1.metadata = st.metadata := by
  rcases addOne_cases directory env st p with ⟨hm, _⟩ | ⟨rel, fm, _, hnone, _⟩
  · exact hm
  · rw [hnone] at h
    exact absurd h (by simp)

theorem addOne_isSome_mono {directory : String} {env : Env} {st : AddState} {p : String}
    {q : String} (h : (dlookup q st.metadata.indexed_files).isSome) :
    (dlookup q (addOne directory env st p).1.metadata.indexed_files).isSome := by
  rcases addOne_cases directory env st p with ⟨hm, _⟩ | ⟨rel, fm, _, _, hm⟩
  · rw [hm]; exact h
  · rw [hm]
    by_cases hqr : rel = q
    · subst hqr
      simp [dlookup_dinsert_self]
    · rw [dlookup_dinsert_ne (fun hqe => hqr hqe.symm) fm _]
      exact h

theorem addOne_ok_tracked {directory : String} {env : Env} {st : AddState} {p : String}
    (h : (addOne directory env st p).2 = none) :
    ∃ rel, relativeTo p directory = .ok rel ∧
      (dlookup rel (addOne directory env st p).1.metadata.indexed_files).isSome := by
  rcases addOne_cases directory env st p with ⟨_, e, he⟩ | ⟨rel, fm, hrel, _, hm⟩
  · rw [he] at h
    exact absurd h (by simp)
  · refine ⟨rel, hrel, ?_⟩
    rw [hm]
    simp [dlookup_dinsert_self]

theorem removeOne_eq_err {directory : String} {env : Env} {st : AddState} {p : String}
    {e : String} (hrel : relativeTo p directory = .error e) :
    removeOne directory env st p = (st, false, some (p, e)) := by
  unfold removeOne
  rw [hrel]

theorem removeOne_eq_tracked {directory : String} {env : Env} {st : AddState} {p : String}
    {rel : String} {fm : FileMetadata} (hrel : relativeTo p directory = .ok rel)
    (hlk : dlookup rel st.metadata.indexed_files = some fm) :
    removeOne directory env st p =
      ({ store := deleteMany env st.store fm.doc_ids,
         metadata := { st.metadata with
           indexed_files := derase rel st.metadata.indexed_files } },
       true, none) := by
  unfold removeOne
  rw [hrel]
  dsimp only
  rw [hlk]

theorem removeOne_eq_untracked {directory : String} {env : Env} {st : AddState} {p : String}
    {rel : String} (hrel : relativeTo p directory = .ok rel)
    (hlk : dlookup rel st.metadata.indexed_files = none) :
    removeOne directory env st p = (st, false, none) := by
  unfold removeOne
  rw [hrel]
  dsimp only
  rw [hlk]

theorem removeOne_cases (directory : String) (env : Env) (st : AddState) (p : String) :
    (removeOne directory env st p).1.metadata.indexed_files = st.metadata.indexed_files ∨
    ∃ rel fm, relativeTo p directory = .ok rel ∧
      dlookup rel st.metadata.indexed_files = some fm ∧
      (removeOne directory env st p).1.metadata.indexed_files =
        derase rel st.metadata.indexed_files := by
  cases hrel : relativeTo p directory with
  | error e => rw [removeOne_eq_err hrel]; exact Or.inl rfl
  | ok rel =>
    cases hlk : dlookup rel st.metadata.indexed_files with
    | none => rw [removeOne_eq_untracked hrel hlk]; exact Or.inl rfl
    | some fm =>
      rw [removeOne_eq_tracked hrel hlk]
      exact Or.inr ⟨rel, fm, rfl, hlk, rfl⟩

theorem removeOne_keys_nodup {directory : String} {env : Env} {st : AddState} {p : String}
    (h : (st.metadata.indexed_files.map Prod.fst).Nodup) :
    (((removeOne directory env st p).1.metadata.indexed_files).map Prod.fst).Nodup := by
  rcases removeOne_cases directory env st p with hm | ⟨rel, fm, _, _, hm⟩
  · rw [hm]; exact h
  · rw [hm]; exact keys_nodup_derase rel h

theorem addStep_fst (directory : String) (env : Env)
    (acc : AddState × Nat × List (String × String)) (p : String) :
    (addStep directory env acc p).1 = (addOne directory env acc.1 p).1 := by
  unfold addStep
  rcases h : addOne directory env acc.1 p with ⟨st', o⟩
  cases o <;> simp

theorem removeStep_fst (directory : String) (env : Env)
    (acc : AddState × Nat × List (String × String)) (p : String) :
    (removeStep directory env acc p).1 = (removeOne directory env acc.1 p).1 := by
  unfold removeStep
  rcases h : removeOne directory env acc.1 p with ⟨st', b, o⟩
  cases b <;> cases o <;> simp

theorem add_fold_isSome_mono (directory : String) (env : Env) (file_paths : List String)
    {q : String} :
    ∀ acc : AddState × Nat × List (String × String),
      (dlookup q acc.1.metadata.indexed_files).isSome →
      (dlookup q
        (file_paths.foldl (addStep directory env) acc).1.metadata.indexed_files).isSome := by
  induction file_paths with
  | nil => intro acc h; exact h
  | cons p rest ih =>
    intro acc h
    rw [List.foldl_cons]
    refine ih _ ?_
    rw [addStep_fst]
    exact addOne_isSome_mono h

theorem add_fold_count (directory : String) (env : Env) (file_paths : List String) :
    ∀ acc : AddState × Nat × List (String × String),
      (file_paths.foldl (addStep directory env) acc).2.1 +
          (file_paths.foldl (addStep directory env) acc).2.2.length =
        acc.2.1 + acc.2.2.length + file_paths.length ∧
      ∃ sfx : List (String × String),
        (file_paths.foldl (addStep directory env) acc).2.2 = acc.2.2 ++ sfx ∧
        (sfx.map Prod.fst).Sublist file_paths ∧
        ∀ p ∈ file_paths, (∃ m, (p, m) ∈ sfx) ∨
          (∃ rel, relativeTo p directory = .ok rel ∧
            (dlookup rel
              (file_paths.foldl (addStep directory env) acc).1.metadata.indexed_files).isSome) := by
  induction file_paths with
  | nil =>
    intro acc
    exact ⟨by simp, [], by simp, by simp, by simp⟩
  | cons p rest ih =>
    intro acc
    rw [List.foldl_cons]
    rcases h : addOne directory env acc.1 p with ⟨st', o⟩
    cases o with
    | none =>
      have hstep : addStep directory env acc p = (st', acc.2.1 + 1, acc.2.2) := by
        unfold addStep
        rw [h]
      rw [hstep]
      obtain ⟨hcount, sfx, hsfx, hsub, hall⟩ := ih (st', acc.2.1 + 1, acc.2.2)
      refine ⟨?_, sfx, hsfx, hsub.cons p, ?_⟩
      · dsimp only at hcount ⊢
        simp only [List.length_cons]
        omega
      intro p' hp'
      rcases List.mem_cons.mp hp' with rfl | hmem
      · right
        obtain ⟨rel, hrel, hsome⟩ :=
          addOne_ok_tracked (show (addOne directory env acc.1 p').2 = none by rw [h])
        have hsome' : (dlookup rel st'.metadata.indexed_files).isSome := by
          rw [h] at hsome
          exact hsome
        exact ⟨rel, hrel, add_fold_isSome_mono directory env rest _ hsome'⟩
      · exact hall p' hmem
    | some err =>
      have herr : err = (p, err.2) := by
        rcases addOne_cases directory env acc.1 p with ⟨_, e, he⟩ | ⟨_, _, _, hnone, _⟩
        · rw [h] at he
          simp only at he
          injection he with hee
          simp [hee]
        · rw [h] at hnone
          exact absurd hnone (by simp)
      have hstep : addStep directory env acc p = (st', acc.2.1, acc.2.2 ++ [err]) := by
        unfold addStep
        rw [h]
      rw [hstep]
      obtain ⟨hcount, sfx, hsfx, hsub, hall⟩ := ih (st', acc.2.1, acc.2.2 ++ [err])
      refine ⟨?_, err :: sfx, ?_, ?_, ?_⟩
      · dsimp only at hcount ⊢
        simp only [List.length_append, List.length_singleton, List.length_cons,
          List.length_nil] at hcount ⊢
        omega
      · rw [hsfx]
        simp
      · have h1 : err.1 = p := by rw [herr]
        simp only [List.map_cons, h1]
        exact hsub.cons₂ p
      · intro p' hp'
        rcases List.mem_cons.mp hp' with rfl | hmem
        · exact Or.inl ⟨err.2, by rw [← herr]; simp⟩
        · rcases hall p' hmem with ⟨m, hm⟩ | hr
          · exact Or.inl ⟨m, List.mem_cons_of_mem _ hm⟩
          · exact Or.inr hr

theorem remove_fold_nodup (directory : String) (env : Env) (file_paths : List String) :
    ∀ acc : AddState × Nat × List (String × String),
      (acc.1.metadata.indexed_files.map Prod.fst).Nodup →
      (((file_paths.foldl (removeStep directory env) acc).1.metadata.indexed_files).map
        Prod.fst).Nodup := by
  induction file_paths with
  | nil => intro acc h; exact h
  | cons p rest ih =>
    intro acc h
    rw [List.foldl_cons]
    refine ih _ ?_
    rw [removeStep_fst]
    exact removeOne_keys_nodup h

theorem add_files_indexed_files (directory : String) (env : Env) (st : AddState)
    (file_paths : List String) :
    (add_files directory env st file_paths).1.metadata.indexed_files =
      (file_paths.foldl (addStep directory env) (st, 0, [])).1.metadata.indexed_files := rfl

theorem add_files_result (directory : String) (env : Env) (st : AddState)
    (file_paths : List String) :
    (add_files directory env st file_paths).2 =
      { processed := (file_paths.foldl (addStep directory env) (st, 0, [])).2.1,
        errors := (file_paths.foldl (addStep directory env) (st, 0, [])).2.2 } := rfl

theorem freshIds_disjoint_of_freshBefore {doc_ids : List String} {n0 : Nat}
    (hfresh : FreshBefore doc_ids n0) {s : Store} (hs : s.nextId = n0) {n : Nat} :
    ∀ d ∈ doc_ids, d ∉ freshIds s n := by
  intro d hd hmem
  obtain ⟨k, hk, rfl⟩ := hfresh d hd
  unfold freshIds at hmem
  obtain ⟨i, hi, heq⟩ := List.mem_map.mp hmem
  have := mkId_inj heq
  omega

theorem addOne_modified_eq
    {directory : String} {env : Env} {st : AddState} {p rel : String}
    {old : FileMetadata} {n : Nat} {mt : ℚ} {sz : ℤ}
    (hrel : relativeTo p directory = .ok rel)
    (hlk : dlookup rel st.metadata.indexed_files = some old)
    (hload : env.loadDocs p = .ok n)
    (hstat : env.stat p = .ok (mt, sz))
    (hins : ∀ d ∈ freshIds st.store n, d ∉ env.failInsert) :
    addOne directory env st p =
      ({ store :=
           { ids := (deleteMany env st.store old.doc_ids).ids ++ freshIds st.store n,
             nextId := st.store.nextId + n },
         metadata :=
           { st.metadata with
             indexed_files :=
               dinsert rel
                 { path := p, mtime := mt, size := sz, doc_ids := freshIds st.store n,
                   indexed_at := some env.now }
                 st.metadata.indexed_files } },
       none) := by
  have hfredel : freshIds (deleteMany env st.store old.doc_ids) n = freshIds st.store n := by
    unfold freshIds
    rw [deleteMany_nextId]
  unfold addOne
  rw [hrel]
  dsimp only
  rw [hlk]
  dsimp only
  rw [hload]
  dsimp only
  rw [hfredel, deleteMany_nextId, insertMany_ok env _ _ hins]
  dsimp only
  rw [hstat]

/-- C3.  Modified-file replacement: when a tracked file is re-processed by the
add/update loop and its load, insert and stat steps succeed, every chunk id in
its current record is first submitted for deletion from the vector store —
each failed per-chunk delete merely survives, never aborting the file — and
afterwards the file's record holds the freshly drawn chunk ids together with
the current mtime, size and `indexed_at`; the fresh ids are disjoint from the
old ones, so a file with chunks gets a record with a different `chunkIds`
value. -/
theorem modified_file_replacement
    (directory : String) (env : Env) (st : AddState) (p rel : String)
    (old : FileMetadata) (n : Nat) (mt : ℚ) (sz : ℤ)
    (hrel : relativeTo p directory = .ok rel)
    (hlk : dlookup rel st.metadata.indexed_files = some old)
    (hload : env.loadDocs p = .ok n)
    (hstat : env.stat p = .ok (mt, sz))
    (hins : ∀ d ∈ freshIds st.store n, d ∉ env.failInsert)
    (hnd : st.store.ids.Nodup)
    (hfresh : FreshBefore old.doc_ids st.store.nextId) :
    (addOne directory env st p).2 = none ∧
    (addOne directory env st p).1.store.ids =
      (deleteMany env st.store old.doc_ids).ids ++ freshIds st.store n ∧
    (∀ d ∈ old.doc_ids, d ∉ env.failDelete → d ∉ (addOne directory env st p).1.store.ids) ∧
    dlookup rel (addOne directory env st p).1.metadata.indexed_files =
      some { path := p, mtime := mt, size := sz, doc_ids := freshIds st.store n,
             indexed_at := some env.now } ∧
    (∀ d ∈ old.doc_ids, d ∉ freshIds st.store n) ∧
    (old.doc_ids ≠ [] ∨ n ≠ 0 → freshIds st.store n ≠ old.doc_ids) := by
  have heq := addOne_modified_eq hrel hlk hload hstat hins
  have hdisj : ∀ d ∈ old.doc_ids, d ∉ freshIds st.store n :=
    freshIds_disjoint_of_freshBefore hfresh rfl
  refine ⟨by rw [heq], by rw [heq], ?_, ?_, hdisj, ?_⟩
  · intro d hd hfail
    rw [heq]
    dsimp only
    rw [List.mem_append]
    push_neg
    exact ⟨deleteMany_kill hnd hd hfail, hdisj d hd⟩
  · rw [heq]
    dsimp only
    exact dlookup_dinsert_self _ _ _
  · intro hne hcontra
    rcases hne with hold | hn
    · obtain ⟨d, hd⟩ := List.exists_mem_of_ne_nil _ hold
      exact hdisj d hd (hcontra ▸ hd)
    · have : (freshIds st.store n).length = n := by simp [freshIds]
      rcases List.eq_nil_or_concat old.doc_ids with hnil | _
      · rw [hcontra, hnil] at this
        simp at this
        exact hn this.symm
      · obtain ⟨d, hd⟩ := List.exists_mem_of_ne_nil old.doc_ids (by
          intro hh
          rw [hcontra, hh] at this
          simp at this
          exact hn this.symm)
        exact hdisj d hd (hcontra ▸ hd)

/-- C4.  Per-file failure isolation in the add/update pass: over any batch,
the processed count plus the number of error entries is exactly the batch
size, the error entries' paths form a subsequence of the batch, and every
file in the batch either contributed an error entry or ended up tracked in
the manifest — no file's failure prevents the others from being processed. -/
theorem add_files_isolation (directory : String) (env : Env) (st : AddState)
    (file_paths : List String) :
    (add_files directory env st file_paths).2.processed +
        (add_files directory env st file_paths).2.errors.length = file_paths.length ∧
    ((add_files directory env st file_paths).2.errors.map Prod.fst).Sublist file_paths ∧
    ∀ p ∈ file_paths,
      (∃ m, (p, m) ∈ (add_files directory env st file_paths).2.errors) ∨
      (∃ rel, relativeTo p directory = .ok rel ∧
        (dlookup rel (add_files directory env st file_paths).1.metadata.indexed_files).isSome) := by
  obtain ⟨hcount, sfx, hsfx, hsub, hall⟩ := add_fold_count directory env file_paths (st, 0, [])
  rw [add_files_result, add_files_indexed_files]
  dsimp only at hcount hsfx ⊢
  rw [hsfx] at hcount ⊢
  simp only [List.nil_append, List.length_nil, List.length_append] at hcount ⊢
  refine ⟨by omega, hsub, ?_⟩
  intro p hp
  rcases hall p hp with ⟨m, hm⟩ | hr
  · exact Or.inl ⟨m, hm⟩
  · exact Or.inr hr

/-- C10.  Manifest-record atomicity under per-file failure: when the add/update
loop body catches an exception for a file, the in-memory manifest is left
exactly as it was before that file was attempted — a previously tracked file
keeps its old record and chunk ids, an untracked file gains no record — even
though chunk deletions or partial inserts may already have hit the store. -/
theorem per_file_failure_manifest_atomicity
    (directory : String) (env : Env) (st : AddState) (p : String) (err : String × String)
    (hfail : (addOne directory env st p).2 = some err) :
    (addOne directory env st p).1.metadata = st.metadata ∧
    ∀ q, dlookup q (addOne directory env st p).1.metadata.indexed_files =
      dlookup q st.metadata.indexed_files := by
  have h := addOne_err_metadata hfail
  exact ⟨h, fun q => by rw [h]⟩

/-- C6.  Deleted-file pass: for a path of the deleted change set that is still
tracked, the loop body submits every recorded chunk id for deletion (a chunk
whose delete does not fail is really gone from the store), removes the
record from `trackedFiles`, and reports `removed`; a path unexpectedly absent
from `trackedFiles` is skipped — state untouched, not counted, no error
entry. -/
theorem deleted_file_pass
    (directory : String) (env : Env) (st : AddState) (p rel : String)
    (hrel : relativeTo p directory = .ok rel)
    (hnd : (st.metadata.indexed_files.map Prod.fst).Nodup)
    (hsnd : st.store.ids.Nodup) :
    (∀ fm, dlookup rel st.metadata.indexed_files = some fm →
      removeOne directory env st p =
        ({ store := deleteMany env st.store fm.doc_ids,
           metadata := { st.metadata with
             indexed_files := derase rel st.metadata.indexed_files } },
         true, none) ∧
      (∀ d ∈ fm.doc_ids, d ∉ env.failDelete →
        d ∉ (removeOne directory env st p).1.store.ids) ∧
      dlookup rel (removeOne directory env st p).1.metadata.indexed_files = none) ∧
    (dlookup rel st.metadata.indexed_files = none →
      removeOne directory env st p = (st, false, none)) := by
  constructor
  · intro fm hfm
    have heq := @removeOne_eq_tracked directory env st p rel fm hrel hfm
    refine ⟨heq, ?_, ?_⟩
    · intro d hd hfail
      rw [heq]
      exact deleteMany_kill hsnd hd hfail
    · rw [heq]
      exact dlookup_derase_self rel _ hnd
  · intro hnone
    exact removeOne_eq_untracked hrel hnone

/-- C9.  Empty-directory build: when the bulk loader finds zero qualifying
documents, `create_index` fails with the EmptyDirectory error before touching
anything on disk — the returned world is exactly the input world, so no
manifest file and no reserved-subdirectory content is created by the failed
build. -/
theorem empty_directory_build (directory : String) (env : Env) (w : World)
    (documents : List Doc) (model_name : String) (storage_type : StorageType)
    (top_k : ℤ) (exclude : List String)
    (hempty : documents = []) :
    create_index directory env w documents model_name storage_type top_k exclude =
      (.error "No documents found", w) := by
  subst hempty
  unfold create_index
  dsimp only
  rw [if_pos (by rfl)]

/-! ### Datetime round trip -/

theorem digitVal_digitChar {k : Nat} (h : k < 10) : digitVal (digitChar k) = some k := by
  interval_cases k <;> rfl

theorem read2_pad2 {n : Nat} (h : n ≤ 99) (r : List Char) :
    read2 (pad2 n ++ r) = some (n, r) := by
  have h1 : n / 10 < 10 := by omega
  have h2 : n % 10 < 10 := by omega
  simp only [pad2, List.cons_append, List.nil_append, read2,
    digitVal_digitChar h1, digitVal_digitChar h2, Option.bind_some]
  have : n / 10 * 10 + n % 10 = n := by omega
  simp [this]

theorem read4_pad4 {n : Nat} (h : n ≤ 9999) (r : List Char) :
    read4 (pad4 n ++ r) = some (n, r) := by
  have h1 : n / 1000 < 10 := by omega
  have h2 : n / 100 % 10 < 10 := by omega
  have h3 : n / 10 % 10 < 10 := by omega
  have h4 : n % 10 < 10 := by omega
  simp only [pad4, List.cons_append, List.nil_append, read4, read2,
    digitVal_digitChar h1, digitVal_digitChar h2, digitVal_digitChar h3,
    digitVal_digitChar h4, Option.bind_some]
  have : ((n / 1000) * 10 + n / 100 % 10) * 100 + (n / 10 % 10 * 10 + n % 10) = n := by omega
  simp [this]

theorem read6_pad6 {n : Nat} (h : n ≤ 999999) (r : List Char) :
    read6 (pad6 n ++ r) = some (n, r) := by
  have h1 : n / 100000 < 10 := by omega
  have h2 : n / 10000 % 10 < 10 := by omega
  have h3 : n / 1000 % 10 < 10 := by omega
  have h4 : n / 100 % 10 < 10 := by omega
  have h5 : n / 10 % 10 < 10 := by omega
  have h6 : n % 10 < 10 := by omega
  simp only [pad6, List.cons_append, List.nil_append, read6, read4, read2,
    digitVal_digitChar h1, digitVal_digitChar h2, digitVal_digitChar h3,
    digitVal_digitChar h4, digitVal_digitChar h5, digitVal_digitChar h6,
    Option.bind_some]
  have : (n / 100000 * 10 + n / 10000 % 10) * 10000 +
      ((n / 1000 % 10 * 10 + n / 100 % 10) * 100 + (n / 10 % 10 * 10 + n % 10)) = n := by
    omega
  simp [this]

theorem expectChar_cons (c : Char) (r : List Char) : expectChar c (c :: r) = some r := by
  simp [expectChar]

theorem read2_pad2_nil {n : Nat} (h : n ≤ 99) : read2 (pad2 n) = some (n, []) := by
  have := read2_pad2 h []
  simpa using this

theorem readOffset_renderOffset {o : Int} (h1 : -1440 < o) (h2 : o < 1440) :
    readOffset (renderOffset o) = some (some o) := by
  have hoh : o.natAbs / 60 ≤ 99 := by omega
  have hom : o.natAbs % 60 ≤ 99 := by omega
  have hsum : o.natAbs / 60 * 60 + o.natAbs % 60 = o.natAbs := by omega
  unfold renderOffset
  by_cases hneg : o < 0
  · rw [if_pos hneg]
    simp only [readOffset, Bind.bind, Option.bind, read2_pad2 hoh, expectChar_cons,
      read2_pad2_nil hom]
    simp only [if_true]
    have : -((o.natAbs / 60 * 60 + o.natAbs % 60 : Nat) : Int) = o := by omega
    rw [this]
    rfl
  · rw [if_neg hneg]
    simp only [readOffset, Bind.bind, Option.bind, read2_pad2 hoh, expectChar_cons,
      read2_pad2_nil hom]
    simp only [if_true]
    have : ((o.natAbs / 60 * 60 + o.natAbs % 60 : Nat) : Int) = o := by omega
    rw [this]
    rfl

theorem read6_pad6_nil {n : Nat} (h : n ≤ 999999) : read6 (pad6 n) = some (n, []) := by
  have := read6_pad6 h []
  simpa using this

theorem readFrac_renderOffset (o : Int) :
    readFrac (renderOffset o) = some (0, renderOffset o) := by
  unfold renderOffset
  by_cases hneg : o < 0
  · rw [if_pos hneg]
    rfl
  · rw [if_neg hneg]
    rfl

theorem fromisoformat_isoformat (t : DTime) (h : t.Valid) :
    fromisoformat (isoformat t) = some t := by
  obtain ⟨y, mo, d, hh, mi, ss, us, off⟩ := t
  unfold DTime.Valid at h
  dsimp only at h
  obtain ⟨hy1, hy2, hm1, hm2, hd1, hd2, hhh, hmi, hss, hus, hoff⟩ := h
  unfold isoformat fromisoformat
  dsimp only
  by_cases husec : us = 0
  · subst husec
    rw [if_pos rfl]
    cases off with
    | none =>
      dsimp only
      simp only [List.append_assoc, List.cons_append, List.nil_append, List.append_nil,
        Bind.bind, Option.bind,
        read4_pad4 (show y ≤ 9999 from by omega), expectChar_cons,
        read2_pad2 (show mo ≤ 99 from by omega),
        read2_pad2 (show d ≤ 99 from by omega),
        read2_pad2 (show hh ≤ 99 from by omega),
        read2_pad2 (show mi ≤ 99 from by omega),
        read2_pad2_nil (show ss ≤ 99 from by omega)]
      rfl
    | some o =>
      have hb := hoff o rfl
      dsimp only
      simp only [List.append_assoc, List.cons_append, List.nil_append, List.append_nil,
        Bind.bind, Option.bind,
        read4_pad4 (show y ≤ 9999 from by omega), expectChar_cons,
        read2_pad2 (show mo ≤ 99 from by omega),
        read2_pad2 (show d ≤ 99 from by omega),
        read2_pad2 (show hh ≤ 99 from by omega),
        read2_pad2 (show mi ≤ 99 from by omega),
        read2_pad2 (show ss ≤ 99 from by omega),
        readFrac_renderOffset, readOffset_renderOffset hb.1 hb.2]
      rfl
  · rw [if_neg husec]
    cases off with
    | none =>
      dsimp only
      simp only [List.append_assoc, List.cons_append, List.nil_append, List.append_nil,
        Bind.bind, Option.bind,
        read4_pad4 (show y ≤ 9999 from by omega), expectChar_cons,
        read2_pad2 (show mo ≤ 99 from by omega),
        read2_pad2 (show d ≤ 99 from by omega),
        read2_pad2 (show hh ≤ 99 from by omega),
        read2_pad2 (show mi ≤ 99 from by omega),
        read2_pad2 (show ss ≤ 99 from by omega)]
      rw [show readFrac ('.' :: pad6 us) = read6 (pad6 us) from rfl,
        read6_pad6_nil (show us ≤ 999999 from by omega)]
      rfl
    | some o =>
      have hb := hoff o rfl
      dsimp only
      simp only [List.append_assoc, List.cons_append, List.nil_append, List.append_nil,
        Bind.bind, Option.bind,
        read4_pad4 (show y ≤ 9999 from by omega), expectChar_cons,
        read2_pad2 (show mo ≤ 99 from by omega),
        read2_pad2 (show d ≤ 99 from by omega),
        read2_pad2 (show hh ≤ 99 from by omega),
        read2_pad2 (show mi ≤ 99 from by omega),
        read2_pad2 (show ss ≤ 99 from by omega)]
      rw [show readFrac ('.' :: (pad6 us ++ renderOffset o)) =
          read6 (pad6 us ++ renderOffset o) from rfl,
        read6_pad6 (show us ≤ 999999 from by omega)]
      simp only [Bind.bind, Option.bind]
      rw [readOffset_renderOffset hb.1 hb.2]
      rfl

theorem replaceAll_nil (pat rep : List Char) : replaceAll pat rep [] = [] := by
  rw [replaceAll]

theorem replaceAll_cons_of_ne {p0 c : Char} (ptl rep rest : List Char) (hc : c ≠ p0) :
    replaceAll (p0 :: ptl) rep (c :: rest) = c :: replaceAll (p0 :: ptl) rep rest := by
  rw [replaceAll, dif_neg]
  rintro ⟨-, hp⟩
  simp only [List.isPrefixOf, Bool.and_eq_true, beq_iff_eq] at hp
  exact hc hp.1.symm

theorem replaceAll_append_notMem {p0 : Char} (ptl rep : List Char) {s : List Char} (u : List Char)
    (h : p0 ∉ s) :
    replaceAll (p0 :: ptl) rep (s ++ u) = s ++ replaceAll (p0 :: ptl) rep u := by
  induction s with
  | nil => simp
  | cons c rest ih =>
    have hc : c ≠ p0 := by
      intro he
      exact h (he ▸ List.mem_cons_self c rest)
    rw [List.cons_append, replaceAll_cons_of_ne _ _ _ hc,
      ih (fun hm => h (List.mem_cons_of_mem c hm))]
    rfl

theorem replaceAll_notMem {p0 : Char} (ptl rep : List Char) {s : List Char} (h : p0 ∉ s) :
    replaceAll (p0 :: ptl) rep s = s := by
  have h2 := replaceAll_append_notMem ptl rep [] h
  simpa [replaceAll_nil] using h2

theorem isPrefixOf_append_self (l u : List Char) : l.isPrefixOf (l ++ u) = true := by
  induction l with
  | nil => simp [List.isPrefixOf]
  | cons a as ih => simp [List.isPrefixOf, ih]

theorem replaceAll_self_append (p0 : Char) (ptl rep u : List Char) :
    replaceAll (p0 :: ptl) rep ((p0 :: ptl) ++ u) = rep ++ replaceAll (p0 :: ptl) rep u := by
  rw [List.cons_append, replaceAll, dif_pos]
  · have hd : (p0 :: (ptl ++ u)).drop (p0 :: ptl).length = u := by
      rw [show p0 :: (ptl ++ u) = (p0 :: ptl) ++ u from rfl, List.drop_left]
    rw [hd]
  · exact ⟨List.cons_ne_nil _ _, isPrefixOf_append_self (p0 :: ptl) u⟩

theorem isoformat_eq_core (t : DTime) :
    isoformat t = isoCore t ++
      (match t.offsetMin with
       | none => []
       | some o => renderOffset o) := by
  unfold isoformat isoCore
  simp [List.append_assoc]

theorem ne_digitChar_of_none {c : Char} {k : Nat} (hk : k ≤ 9) (hc : digitVal c = none) :
    c ≠ digitChar k := by
  intro he
  have hd := digitVal_digitChar (show k < 10 from by omega)
  rw [← he, hc] at hd
  cases hd

theorem notMem_pad2 {c : Char} {n : Nat} (hn : n ≤ 99) (hc : digitVal c = none) : c ∉ pad2 n := by
  simp [pad2, ne_digitChar_of_none (show n / 10 ≤ 9 from by omega) hc,
    ne_digitChar_of_none (show n % 10 ≤ 9 from by omega) hc]

theorem notMem_pad4 {c : Char} {n : Nat} (hn : n ≤ 9999) (hc : digitVal c = none) :
    c ∉ pad4 n := by
  simp [pad4, ne_digitChar_of_none (show n / 1000 ≤ 9 from by omega) hc,
    ne_digitChar_of_none (show n / 100 % 10 ≤ 9 from by omega) hc,
    ne_digitChar_of_none (show n / 10 % 10 ≤ 9 from by omega) hc,
    ne_digitChar_of_none (show n % 10 ≤ 9 from by omega) hc]

theorem notMem_pad6 {c : Char} {n : Nat} (hn : n ≤ 999999) (hc : digitVal c = none) :
    c ∉ pad6 n := by
  simp [pad6, ne_digitChar_of_none (show n / 100000 ≤ 9 from by omega) hc,
    ne_digitChar_of_none (show n / 10000 % 10 ≤ 9 from by omega) hc,
    ne_digitChar_of_none (show n / 1000 % 10 ≤ 9 from by omega) hc,
    ne_digitChar_of_none (show n / 100 % 10 ≤ 9 from by omega) hc,
    ne_digitChar_of_none (show n / 10 % 10 ≤ 9 from by omega) hc,
    ne_digitChar_of_none (show n % 10 ≤ 9 from by omega) hc]

theorem notMem_isoCore {c : Char} {t : DTime} (h : t.Valid) (hc : digitVal c = none)
    (h1 : c ≠ '-') (h2 : c ≠ 'T') (h3 : c ≠ ':') (h4 : c ≠ '.') : c ∉ isoCore t := by
  obtain ⟨y, mo, d, hh, mi, ss, us, off⟩ := t
  unfold DTime.Valid at h
  dsimp only at h
  obtain ⟨hy1, hy2, hm1, hm2, hd1, hd2, hhh, hmi, hss, hus, -⟩ := h
  unfold isoCore
  dsimp only
  have n1 : c ∉ pad4 y := notMem_pad4 (by omega) hc
  have n2 : c ∉ pad2 mo := notMem_pad2 (by omega) hc
  have n3 : c ∉ pad2 d := notMem_pad2 (by omega) hc
  have n4 : c ∉ pad2 hh := notMem_pad2 (by omega) hc
  have n5 : c ∉ pad2 mi := notMem_pad2 (by omega) hc
  have n6 : c ∉ pad2 ss := notMem_pad2 (by omega) hc
  have n7 : c ∉ pad6 us := notMem_pad6 (by omega) hc
  by_cases husec : us = 0
  · rw [if_pos husec]
    simp [List.mem_append, List.mem_cons, n1, n2, n3, n4, n5, n6, h1, h2, h3, h4]
  · rw [if_neg husec]
    simp [List.mem_append, List.mem_cons, n1, n2, n3, n4, n5, n6, n7, h1, h2, h3, h4]

theorem zero_of_eq_digitChar {k : Nat} (hk : k ≤ 9) (he : ('0' : Char) = digitChar k) :
    k = 0 := by
  have hd := digitVal_digitChar (show k < 10 from by omega)
  rw [← he] at hd
  have h0 : digitVal '0' = some 0 := by decide
  rw [h0] at hd
  exact (Option.some.inj hd).symm

theorem serialize_eq (t : DTime) (h : t.Valid) :
    replaceAll ('+' :: '0' :: '0' :: ':' :: '0' :: '0' :: []) ('Z' :: []) (isoformat t) =
      isoCore t ++
        (match t.offsetMin with
         | none => []
         | some o => if o = 0 then ['Z'] else renderOffset o) := by
  have hplus : ('+' : Char) ∉ isoCore t :=
    notMem_isoCore h (by decide) (by decide) (by decide) (by decide) (by decide)
  rw [isoformat_eq_core]
  have hoffb : ∀ o ∈ t.offsetMin, -1440 < o ∧ o < 1440 :=
    h.2.2.2.2.2.2.2.2.2.2
  cases hoff : t.offsetMin with
  | none =>
    dsimp only
    rw [replaceAll_append_notMem _ _ _ hplus, replaceAll_nil]
  | some o =>
    have hb := hoffb o (by rw [hoff]; rfl)
    dsimp only
    rw [replaceAll_append_notMem _ _ _ hplus]
    congr 1
    by_cases ho : o = 0
    · rw [if_pos ho, ho]
      have hr : renderOffset 0 = ('+' :: '0' :: '0' :: ':' :: '0' :: '0' :: []) := by decide
      rw [hr]
      have h2 := replaceAll_self_append '+' ('0' :: '0' :: ':' :: '0' :: '0' :: []) ('Z' :: []) []
      simpa [replaceAll_nil] using h2
    · rw [if_neg ho]
      have hdp : digitVal '+' = none := by decide
      have hz1 : ('+' : Char) ∉ pad2 (o.natAbs / 60) ++ ':' :: pad2 (o.natAbs % 60) := by
        simp [List.mem_append, List.mem_cons,
          notMem_pad2 (show o.natAbs / 60 ≤ 99 from by omega) hdp,
          notMem_pad2 (show o.natAbs % 60 ≤ 99 from by omega) hdp]
      unfold renderOffset
      by_cases hneg : o < 0
      · rw [if_pos hneg,
          replaceAll_cons_of_ne _ _ _ (show ('-' : Char) ≠ '+' from by decide),
          replaceAll_notMem _ _ hz1]
      · rw [if_neg hneg, replaceAll, dif_neg]
        · rw [replaceAll_notMem _ _ hz1]
        · rintro ⟨-, hp⟩
          simp only [pad2, List.isPrefixOf, List.cons_append, List.nil_append,
            Bool.and_eq_true, beq_iff_eq, eq_self_iff_true, true_and, and_true] at hp
          obtain ⟨e1, e2, e3, e4⟩ := hp
          have z1 := zero_of_eq_digitChar (show o.natAbs / 60 / 10 ≤ 9 from by omega) e1
          have z2 := zero_of_eq_digitChar (show o.natAbs / 60 % 10 ≤ 9 from by omega) e2
          have z3 := zero_of_eq_digitChar (show o.natAbs % 60 / 10 ≤ 9 from by omega) e3
          have z4 := zero_of_eq_digitChar (show o.natAbs % 60 % 10 ≤ 9 from by omega) e4
          have hz : o.natAbs = 0 := by omega
          exact ho (Int.natAbs_eq_zero.mp hz)

theorem deserialize_eq (t : DTime) (h : t.Valid) :
    replaceAll ('Z' :: []) ('+' :: '0' :: '0' :: ':' :: '0' :: '0' :: [])
      (replaceAll ('+' :: '0' :: '0' :: ':' :: '0' :: '0' :: []) ('Z' :: []) (isoformat t)) =
    isoformat t := by
  rw [serialize_eq t h, isoformat_eq_core]
  have hZ : ('Z' : Char) ∉ isoCore t :=
    notMem_isoCore h (by decide) (by decide) (by decide) (by decide) (by decide)
  have hoffb : ∀ o ∈ t.offsetMin, -1440 < o ∧ o < 1440 :=
    h.2.2.2.2.2.2.2.2.2.2
  cases hoff : t.offsetMin with
  | none =>
    dsimp only
    rw [replaceAll_append_notMem _ _ _ hZ, replaceAll_nil]
  | some o =>
    have hb := hoffb o (by rw [hoff]; rfl)
    dsimp only
    by_cases ho : o = 0
    · rw [if_pos ho, ho, replaceAll_append_notMem _ _ _ hZ]
      congr 1
      have h2 := replaceAll_self_append 'Z' [] ('+' :: '0' :: '0' :: ':' :: '0' :: '0' :: []) []
      simp only [List.nil_append, List.append_nil, replaceAll_nil] at h2
      rw [show (['Z'] : List Char) = 'Z' :: [] from rfl, h2]
      decide
    · rw [if_neg ho, replaceAll_append_notMem _ _ _ hZ]
      congr 1
      apply replaceAll_notMem
      have hdz : digitVal 'Z' = none := by decide
      have hz1 : ('Z' : Char) ∉ pad2 (o.natAbs / 60) ++ ':' :: pad2 (o.natAbs % 60) := by
        simp [List.mem_append, List.mem_cons,
          notMem_pad2 (show o.natAbs / 60 ≤ 99 from by omega) hdz,
          notMem_pad2 (show o.natAbs % 60 ≤ 99 from by omega) hdz]
      unfold renderOffset
      by_cases hneg : o < 0
      · rw [if_pos hneg]
        simp [List.mem_cons, hz1]
      · rw [if_neg hneg]
        simp [List.mem_cons, hz1]

theorem parse_serialize (t : DTime) (h : t.Valid) :
    parseDatetime (serializeDatetime t) = some t := by
  unfold parseDatetime serializeDatetime
  have hp : ("+00:00".toList : List Char) = '+' :: '0' :: '0' :: ':' :: '0' :: '0' :: [] := rfl
  have hz : ("Z".toList : List Char) = 'Z' :: [] := rfl
  rw [hp, hz, deserialize_eq t h]
  exact fromisoformat_isoformat t h

theorem asDatetime_serialize (t : DTime) (h : t.Valid) :
    Json.asDatetime (Json.str (String.mk (serializeDatetime t))) = .ok t := by
  have he : Json.asDatetime (Json.str (String.mk (serializeDatetime t))) =
      match parseDatetime (serializeDatetime t) with
      | some u => .ok u
      | none => .error "invalid isoformat string" := rfl
  rw [he, parse_serialize t h]

theorem asStrings_map_str (l : List String) : asStrings (l.map Json.str) = .ok l := by
  induction l with
  | nil => rfl
  | cons a as ih =>
    simp [asStrings, Json.asStr, ih, Bind.bind, Except.bind, pure, Except.pure]

theorem storage_roundtrip (st : StorageType) : StorageType.parse st.toStr = .ok st := by
  cases st <;> rfl

theorem fm_roundtrip (fm : FileMetadata) (t : DTime) (ht : fm.indexed_at = some t)
    (hv : t.Valid) :
    ∃ j, fm.dumpJson = .ok j ∧ FileMetadata.validate j = .ok fm := by
  obtain ⟨path, mtime, size, doc_ids, ia⟩ := fm
  dsimp only at ht
  subst ht
  refine ⟨_, rfl, ?_⟩
  simp [FileMetadata.validate, dlookup, Json.asStr, Json.asNum, Json.asInt, Json.asStrList,
    asStrings_map_str, asDatetime_serialize t hv, Bind.bind, Except.bind, pure, Except.pure,
    Except.map, Rat.den_intCast, Rat.num_intCast]

theorem entries_roundtrip (l : List (String × FileMetadata))
    (h : ∀ p ∈ l, ∃ t, p.2.indexed_at = some t ∧ t.Valid) :
    ∃ js, dumpEntries l = .ok js ∧ validateEntries js = .ok l := by
  induction l with
  | nil => exact ⟨[], rfl, rfl⟩
  | cons p rest ih =>
    obtain ⟨k, fm⟩ := p
    obtain ⟨t, ht, hv⟩ := h (k, fm) (List.mem_cons_self _ _)
    obtain ⟨j, hj1, hj2⟩ := fm_roundtrip fm t ht hv
    obtain ⟨js, hjs1, hjs2⟩ := ih (fun q hq => h q (List.mem_cons_of_mem _ hq))
    refine ⟨(k, j) :: js, ?_, ?_⟩
    · simp [dumpEntries, hj1, hjs1, Bind.bind, Except.bind, pure, Except.pure]
    · simp [validateEntries, hj2, hjs2, Bind.bind, Except.bind, pure, Except.pure]

/-- C8: saving a valid manifest (well-formed timestamps, every tracked record
carrying a well-formed `indexed_at`) to the manifest file and loading it back
recovers the manifest exactly, whatever the file held before. -/
theorem metadata_roundtrip (M : Metadata) (f : Option Json)
    (h1 : M.created_at.Valid) (h2 : M.last_updated.Valid)
    (h3 : ∀ p ∈ M.indexed_files, ∃ t, p.2.indexed_at = some t ∧ t.Valid) :
    (save_metadata f M).bind load_metadata = .ok M := by
  obtain ⟨mn, st, ca, lu, files, cfg⟩ := M
  obtain ⟨tk, ex⟩ := cfg
  dsimp only at h1 h2 h3
  obtain ⟨js, hd, hv⟩ := entries_roundtrip files h3
  unfold save_metadata Metadata.dumpJson
  dsimp only
  rw [hd]
  simp only [Bind.bind, Except.bind, Except.map, pure, Except.pure]
  unfold load_metadata
  simp [Metadata.validate, MetadataConfig.validate, dlookup, Json.asStr, Json.asInt,
    Json.asStrList, asStrings_map_str, asDatetime_serialize ca h1, asDatetime_serialize lu h2,
    storage_roundtrip, hv, Bind.bind, Except.bind, pure, Except.pure, Except.map,
    Rat.den_intCast, Rat.num_intCast]

/-! ### Witnesses and counterexample -/

/-- Witness: the classification theorem applied to the sample two-file rescan
over the one-file manifest. -/
theorem detect_changes_classification_witness :
    (wScan.map FsEntry.relPath).Nodup ∧
    (wMd.indexed_files.map Prod.fst).Nodup ∧
    (∀ p ∈ wMd.indexed_files, (p.2 : FileMetadata).path = "/r" ++ "/" ++ p.1) ∧
    detect_changes "/r" true (some wMd) wScan = .ok wCh ∧
    ((wCh.added = [] ∧ wCh.modified = [] ∧ wCh.deleted = []) ↔
      matchesExactly (currentFiles "/r" wMd.config.exclude wScan) wMd.indexed_files) := by
  have h1 : (wScan.map FsEntry.relPath).Nodup := by decide
  have h2 : (wMd.indexed_files.map Prod.fst).Nodup := by decide
  have h3 : ∀ p ∈ wMd.indexed_files, (p.2 : FileMetadata).path = "/r" ++ "/" ++ p.1 := by
    decide
  have h4 : detect_changes "/r" true (some wMd) wScan = .ok wCh := by rfl
  exact ⟨h1, h2, h3, h4, (detect_changes_classification "/r" wMd wScan wCh h1 h2 h3 h4).2⟩

/-- Witness: the replacement theorem applied to the tracked file `a.txt`
being re-indexed with one fresh document. -/
theorem modified_file_replacement_witness :
    relativeTo "/r/a.txt" "/r" = .ok "a.txt" ∧
    dlookup "a.txt" wSt.metadata.indexed_files = some wFm ∧
    wEnv.loadDocs "/r/a.txt" = .ok 1 ∧
    wEnv.stat "/r/a.txt" = .ok (2, 2) ∧
    (∀ d ∈ freshIds wSt.store 1, d ∉ wEnv.failInsert) ∧
    wSt.store.ids.Nodup ∧
    FreshBefore wFm.doc_ids wSt.store.nextId ∧
    dlookup "a.txt" (addOne "/r" wEnv wSt "/r/a.txt").1.metadata.indexed_files =
      some { path := "/r/a.txt", mtime := 2, size := 2, doc_ids := freshIds wSt.store 1,
             indexed_at := some wEnv.now } := by
  have h1 : relativeTo "/r/a.txt" "/r" = .ok "a.txt" := by rfl
  have h2 : dlookup "a.txt" wSt.metadata.indexed_files = some wFm := by decide
  have h3 : wEnv.loadDocs "/r/a.txt" = .ok 1 := by rfl
  have h4 : wEnv.stat "/r/a.txt" = .ok (2, 2) := by rfl
  have h5 : ∀ d ∈ freshIds wSt.store 1, d ∉ wEnv.failInsert := by decide
  have h6 : wSt.store.ids.Nodup := by decide
  have h7 : FreshBefore wFm.doc_ids wSt.store.nextId := by
    intro d hd
    simp only [wFm, List.mem_singleton] at hd
    exact ⟨0, by decide, hd⟩
  exact ⟨h1, h2, h3, h4, h5, h6, h7,
    (modified_file_replacement "/r" wEnv wSt "/r/a.txt" "a.txt" wFm 1 2 2
      h1 h2 h3 h4 h5 h6 h7).2.2.2.1⟩

/-- Witness: the deleted-file-pass theorem applied to removing the tracked
file `a.txt`. -/
theorem deleted_file_pass_witness :
    relativeTo "/r/a.txt" "/r" = .ok "a.txt" ∧
    (wSt.metadata.indexed_files.map Prod.fst).Nodup ∧
    wSt.store.ids.Nodup ∧
    dlookup "a.txt" wSt.metadata.indexed_files = some wFm ∧
    removeOne "/r" wEnv wSt "/r/a.txt" =
      ({ store := deleteMany wEnv wSt.store wFm.doc_ids,
         metadata := { wSt.metadata with
           indexed_files := derase "a.txt" wSt.metadata.indexed_files } },
       true, none) := by
  have h1 : relativeTo "/r/a.txt" "/r" = .ok "a.txt" := by rfl
  have h2 : (wSt.metadata.indexed_files.map Prod.fst).Nodup := by decide
  have h3 : wSt.store.ids.Nodup := by decide
  have h4 : dlookup "a.txt" wSt.metadata.indexed_files = some wFm := by decide
  exact ⟨h1, h2, h3, h4,
    ((deleted_file_pass "/r" wEnv wSt "/r/a.txt" "a.txt" h1 h2 h3).1 wFm h4).1⟩

/-- Witness: the round-trip theorem applied to the sample one-file
manifest. -/
theorem metadata_roundtrip_witness :
    wMd.created_at.Valid ∧ wMd.last_updated.Valid ∧
    (∀ p ∈ wMd.indexed_files, ∃ t, p.2.indexed_at = some t ∧ t.Valid) ∧
    (save_metadata none wMd).bind load_metadata = .ok wMd := by
  have h1 : wMd.created_at.Valid := by decide
  have h2 : wMd.last_updated.Valid := by decide
  have h3 : ∀ p ∈ wMd.indexed_files, ∃ t, p.2.indexed_at = some t ∧ t.Valid := by
    intro p hp
    simp only [wMd, List.mem_singleton] at hp
    subst hp
    exact ⟨wT0, rfl, by decide⟩
  exact ⟨h1, h2, h3, metadata_roundtrip wMd none h1 h2 h3⟩

/-- Witness: the empty-build theorem applied to a zero-document load. -/
theorem empty_directory_build_witness :
    ([] : List Doc) = [] ∧
    create_index "/r" wEnv wW [] "m" StorageType.chromadb 3 [] =
      (.error "No documents found", wW) :=
  ⟨rfl, empty_directory_build "/r" wEnv wW [] "m" StorageType.chromadb 3 [] rfl⟩

/-- Witness: the atomicity theorem applied to a load failure on the tracked
file `a.txt` — its old chunk is already gone from the store, yet the manifest
is untouched. -/
theorem per_file_failure_manifest_atomicity_witness :
    (addOne "/r" wEnvF wSt "/r/a.txt").2 = some ("/r/a.txt", "load failed") ∧
    (addOne "/r" wEnvF wSt "/r/a.txt").1.store.ids = [] ∧
    (addOne "/r" wEnvF wSt "/r/a.txt").1.metadata = wSt.metadata := by
  have hfail : (addOne "/r" wEnvF wSt "/r/a.txt").2 = some ("/r/a.txt", "load failed") := by
    rfl
  refine ⟨hfail, by decide, ?_⟩
  exact (per_file_failure_manifest_atomicity "/r" wEnvF wSt "/r/a.txt"
    ("/r/a.txt", "load failed") hfail).1

end Mbed
